import Mathlib

/-!
Verification of the Konva export demo's shape generator and the four
scene-export strategies (regular, minified, optimized, delta-compressed),
shallowly embedded from `src/index.js`.

Numbers are modelled as exact rationals (the JavaScript values reached by
the generator and the export handlers are integers and multiples of 1/100,
on which IEEE doubles are exact).  The injectable random source demanded by
the specification is a stream of draws in `[0,1)`, one per `Math.random()`
call, consumed in program order.
-/

/-- One value of a kind-specific attribute template: the source stores
either a number (scaled at generation time) or a string (copied verbatim). -/
inductive JAttr where
  | num (v : ℚ) : JAttr
  | str (s : String) : JAttr
deriving DecidableEq, Repr

/-- The common style properties shared by every generated shape
(`COMMON_PROPS` in the source). -/
structure CommonProps where
  shadowBlur : ℚ
  opacity : ℚ
deriving DecidableEq, Repr

/-- `COMMON_PROPS = { shadowBlur: 5, opacity: 0.75 }`. -/
def COMMON_PROPS : CommonProps := { shadowBlur := 5, opacity := 3 / 4 }

/-- The glyph stored in the text template: the source file literally holds
the three characters U+00E2, U+02DC, U+2026. -/
def starGlyph : String := "â˜…"

/-- `SHAPE_DEFAULTS`: the per-kind attribute templates, in source order. -/
def SHAPE_DEFAULTS : List (String × List (String × JAttr)) :=
  [("rect", [("width", .num 100), ("height", .num 100)]),
   ("circle", [("radius", .num 50)]),
   ("text", [("text", .str starGlyph), ("fontSize", .num 100)]),
   ("star", [("numPoints", .num 5), ("innerRadius", .num 50), ("outerRadius", .num 100)]),
   ("triangle", [("sides", .num 3), ("radius", .num 100)]),
   ("hexagon", [("sides", .num 6), ("radius", .num 100)])]

/-- Look a kind's template up in `SHAPE_DEFAULTS` (`SHAPE_DEFAULTS[shapeType]`). -/
def lookupDefaults (kind : String) : List (String × JAttr) :=
  (SHAPE_DEFAULTS.lookup kind).getD []

/-- The fixed kind enumeration, in source order (`shapeTypes`). -/
def shapeTypes : List String := ["rect", "circle", "text", "star", "triangle", "hexagon"]

/-- The six-entry fill palette of `getRandomColor`. -/
def colors : List String := ["#F00", "#0F0", "#00F", "#FF0", "#F0F", "#0FF"]

/-- `getRandomInt(min, max)` with the `Math.random()` draw `r` made explicit:
`Math.floor(r * (max - min + 1)) + min`. -/
def getRandomInt (r : ℚ) (min max : ℤ) : ℤ :=
  ⌊r * ((max : ℚ) - (min : ℚ) + 1)⌋ + min

/-- A canonical in-memory shape: the flat object built in `generateShapes`
from `baseProps` (id, x, y, fill, rotation, type, then the spread of
`COMMON_PROPS`) followed by the spread of the scaled defaults. -/
structure Shape where
  id : String
  x : ℚ
  y : ℚ
  fill : String
  rotation : ℚ
  type : String
  shadowBlur : ℚ
  opacity : ℚ
  attrs : List (String × JAttr)
deriving DecidableEq, Repr

/-- The body of the `Object.entries(shapeDefaults).reduce` fold: a numeric
template value becomes `(value * size) / 100`, anything else is kept. -/
def scaleAttr (size : ℤ) : JAttr → JAttr
  | .num v => .num (v * (size : ℚ) / 100)
  | .str s => .str s

/-- `scaledDefaults`: apply `scaleAttr` to every entry of a template. -/
def scaleAttrs (size : ℤ) (attrs : List (String × JAttr)) : List (String × JAttr) :=
  attrs.map fun kv => (kv.1, scaleAttr size kv.2)

/-- A random source: the stream of `Math.random()` results, in call order. -/
def Rng : Type := ℕ → ℚ

/-- Validity of a random source: every draw lies in `[0, 1)`, the contract
of `Math.random()`. -/
def RngValid (rng : Rng) : Prop := ∀ k, 0 ≤ rng k ∧ rng k < 1

/-- One iteration of the `generateShapes` loop.  Iteration `i` consumes the
six draws `6*i .. 6*i+5` in the source's call order: kind, x, y, size,
rotation, color. -/
def generateShape (rng : Rng) (stageWidth stageHeight : ℤ) (i : ℕ) : Shape :=
  let shapeType := shapeTypes.getD (⌊rng (6 * i) * (shapeTypes.length : ℚ)⌋).toNat ""
  let x := getRandomInt (rng (6 * i + 1)) 0 stageWidth
  let y := getRandomInt (rng (6 * i + 2)) 0 stageHeight
  let size := getRandomInt (rng (6 * i + 3)) 50 150
  let rotation := getRandomInt (rng (6 * i + 4)) 0 360
  let color := colors.getD (⌊rng (6 * i + 5) * (colors.length : ℚ)⌋).toNat ""
  { id := toString i
    x := (x : ℚ)
    y := (y : ℚ)
    fill := color
    rotation := (rotation : ℚ)
    type := shapeType
    shadowBlur := COMMON_PROPS.shadowBlur
    opacity := COMMON_PROPS.opacity
    attrs := scaleAttrs size (lookupDefaults shapeType) }

/-- `generateShapes` with the loop bound and stage extent as parameters
(the source reads them from the module constants `SHAPE_COUNT`,
`STAGE_WIDTH`, `STAGE_HEIGHT`; the specification requires them
configurable). -/
def generateShapesWith (rng : Rng) (count : ℕ) (stageWidth stageHeight : ℤ) : List Shape :=
  (List.range count).map (generateShape rng stageWidth stageHeight)

/-- `SHAPE_COUNT`. -/
def SHAPE_COUNT : ℕ := 10000

/-- `STAGE_WIDTH`. -/
def STAGE_WIDTH : ℤ := 10000

/-- `STAGE_HEIGHT`. -/
def STAGE_HEIGHT : ℤ := 10000

/-- `generateShapes` at the source's constants. -/
def generateShapes (rng : Rng) : List Shape :=
  generateShapesWith rng SHAPE_COUNT STAGE_WIDTH STAGE_HEIGHT

/-- `type.charAt(0)`: the one-character string holding the first character,
or the empty string when `type` is empty. -/
def charAt0 (s : String) : String :=
  match s.data with
  | [] => ""
  | c :: _ => String.mk [c]

/-- One entry of the optimized / compressed `shapes` array: exactly the six
fields `{ i, x, y, f, r, t }` built by the export handlers. -/
structure OptShape where
  i : String
  x : ℚ
  y : ℚ
  f : String
  r : ℚ
  t : String
deriving DecidableEq, Repr

/-- The payload object `{ v, c, d, s }` serialized by the optimized and
compressed exports. -/
structure OptPayload where
  v : ℕ
  c : CommonProps
  d : List (String × List (String × JAttr))
  s : List OptShape
deriving DecidableEq, Repr

/-- The projection applied by `handleOptimizedExport` to each shape. -/
def optimizeShape (sh : Shape) : OptShape :=
  { i := sh.id, x := sh.x, y := sh.y, f := sh.fill, r := sh.rotation, t := charAt0 sh.type }

/-- `handleOptimizedExport`: project every shape and wrap the result with
`v = 1`, `c = COMMON_PROPS`, `d = SHAPE_DEFAULTS`. -/
def handleOptimizedExport (shapes : List Shape) : OptPayload :=
  { v := 1, c := COMMON_PROPS, d := SHAPE_DEFAULTS, s := shapes.map optimizeShape }

/-- The loop of `handleCompressedExport`: the mutable locals `lastX`,
`lastY` (seeded with 0) are threaded explicitly; each shape is emitted with
`x`/`y` replaced by `deltaX = x - lastX`, `deltaY = y - lastY`. -/
def compressShapes (lastX lastY : ℚ) : List Shape → List OptShape
  | [] => []
  | sh :: rest =>
      { i := sh.id, x := sh.x - lastX, y := sh.y - lastY,
        f := sh.fill, r := sh.rotation, t := charAt0 sh.type }
        :: compressShapes sh.x sh.y rest

/-- `handleCompressedExport`: delta-compress the positions and wrap with the
same `v`, `c`, `d` header as the optimized export. -/
def handleCompressedExport (shapes : List Shape) : OptPayload :=
  { v := 1, c := COMMON_PROPS, d := SHAPE_DEFAULTS, s := compressShapes 0 0 shapes }

/-- Sequential reconstruction of the `x` coordinates from a compressed
shapes array: `x_i = x_(i-1) + delta_i`, seeded with the accumulator. -/
def reconstructX (last : ℚ) : List OptShape → List ℚ
  | [] => []
  | o :: rest => (last + o.x) :: reconstructX (last + o.x) rest

/-- Sequential reconstruction of the `y` coordinates from a compressed
shapes array. -/
def reconstructY (last : ℚ) : List OptShape → List ℚ
  | [] => []
  | o :: rest => (last + o.y) :: reconstructY (last + o.y) rest

/-!
A model of the JSON texts and of the platform's `JSON.parse` /
`JSON.stringify`, which the export handlers call but which are not part of
this repository.  Texts are lists of characters; byte sizes are measured by
UTF-8 length.  Numbers are decimal literals `m / 10^e`, parsed and rendered
digit-for-digit (the handlers only ever serialize integers and multiples of
1/100, on which this grammar is exact); exponent literals are not modelled.
-/

/-- A JSON value.  Object fields keep insertion order, as
`JSON.stringify` does. -/
inductive JVal where
  | jnull : JVal
  | jbool (b : Bool) : JVal
  | jnum (m : ℤ) (e : ℕ) : JVal
  | jstr (s : List Char) : JVal
  | jarr (elems : List JVal) : JVal
  | jobj (fields : List (List Char × JVal)) : JVal

/-- The decimal digit character for `d < 10`. -/
def digitChar (d : ℕ) : Char := Char.ofNat (48 + d)

/-- Most-significant-first decimal digits of a natural number, with an
explicit recursion budget and accumulator so that the kernel can reduce it. -/
def renderNatAux : ℕ → ℕ → List Char → List Char
  | 0, _, acc => acc
  | fuel + 1, n, acc =>
      if n < 10 then digitChar n :: acc
      else renderNatAux fuel (n / 10) (digitChar (n % 10) :: acc)

/-- Decimal digits of a natural number, most significant first. -/
def renderNat (n : ℕ) : List Char := renderNatAux (n + 1) n []

/-- Pad a digit list with leading zeros up to length `k`. -/
def padLeft (ds : List Char) (k : ℕ) : List Char :=
  List.replicate (k - ds.length) '0' ++ ds

/-- Render the decimal literal `m / 10^e`: the digits of `|m|` padded to at
least `e + 1` digits, with a point before the last `e` of them, and a sign. -/
def renderDec (m : ℤ) (e : ℕ) : List Char :=
  let ds := padLeft (renderNat m.natAbs) (e + 1)
  (if m < 0 then ['-'] else []) ++
    (if e = 0 then ds else ds.take (ds.length - e) ++ '.' :: ds.drop (ds.length - e))

/-- JSON string escaping of one character (quote, backslash and the common
control characters; other characters pass through). -/
def escapeChar (c : Char) : List Char :=
  if c = '"' then ['\\', '"']
  else if c = '\\' then ['\\', '\\']
  else if c = '\n' then ['\\', 'n']
  else if c = '\t' then ['\\', 't']
  else if c = '\r' then ['\\', 'r']
  else [c]

/-- JSON string escaping of a character list. -/
def escapeList : List Char → List Char
  | [] => []
  | c :: cs => escapeChar c ++ escapeList cs

/-- A JSON string literal: quotes around the escaped body. -/
def renderStr (s : List Char) : List Char := '"' :: escapeList s ++ ['"']

mutual
/-- `JSON.stringify` without an indent argument: the compact rendering. -/
def stringify : JVal → List Char
  | .jnull => ['n', 'u', 'l', 'l']
  | .jbool true => ['t', 'r', 'u', 'e']
  | .jbool false => ['f', 'a', 'l', 's', 'e']
  | .jnum m e => renderDec m e
  | .jstr s => renderStr s
  | .jarr [] => ['[', ']']
  | .jarr (v :: vs) => '[' :: (stringify v ++ stringifyItems vs ++ [']'])
  | .jobj [] => ['{', '}']
  | .jobj (kv :: kvs) =>
      '{' :: (renderStr kv.1 ++ ':' :: stringify kv.2 ++ stringifyFields kvs ++ ['}'])

/-- The remaining elements of a non-empty array, each preceded by a comma. -/
def stringifyItems : List JVal → List Char
  | [] => []
  | v :: vs => ',' :: (stringify v ++ stringifyItems vs)

/-- The remaining fields of a non-empty object, each preceded by a comma. -/
def stringifyFields : List (List Char × JVal) → List Char
  | [] => []
  | kv :: kvs => ',' :: (renderStr kv.1 ++ ':' :: stringify kv.2 ++ stringifyFields kvs)
end

/-- Decimal digit test. -/
def isDigit (c : Char) : Bool := 48 ≤ c.toNat && c.toNat ≤ 57

/-- Numeric value of a decimal digit character. -/
def charDigit (c : Char) : ℕ := c.toNat - 48

/-- Value of a most-significant-first digit list, extending accumulator `a`. -/
def digitsVal (a : ℕ) (ds : List Char) : ℕ :=
  ds.foldl (fun x c => 10 * x + charDigit c) a

/-- JSON insignificant whitespace. -/
def isWsChar (c : Char) : Bool := c = ' ' || c = '\n' || c = '\t' || c = '\r'

/-- Drop leading insignificant whitespace. -/
def skipWs : List Char → List Char
  | [] => []
  | c :: cs => if isWsChar c then skipWs cs else c :: cs

/-- Inverse of `escapeChar` on the character following a backslash. -/
def unescape (c : Char) : Option Char :=
  if c = '"' then some '"'
  else if c = '\\' then some '\\'
  else if c = 'n' then some '\n'
  else if c = 't' then some '\t'
  else if c = 'r' then some '\r'
  else none

/-- Parse a string body after the opening quote, up to and including the
closing quote; returns the unescaped body and the remaining input. -/
def parseStrBody : List Char → Option (List Char × List Char)
  | [] => none
  | c :: cs =>
      if c = '"' then some ([], cs)
      else if c = '\\' then
        match cs with
        | [] => none
        | c2 :: cs2 =>
            match unescape c2 with
            | some u => (parseStrBody cs2).map fun r => (u :: r.1, r.2)
            | none => none
      else (parseStrBody cs).map fun r => (c :: r.1, r.2)

/-- Consume leading decimal digits, returning their value over accumulator
`acc`, the updated digit count and the remaining input. -/
def parseDigitsCnt : List Char → ℕ → ℕ → ℕ × ℕ × List Char
  | [], acc, cnt => (acc, cnt, [])
  | c :: cs, acc, cnt =>
      if isDigit c then parseDigitsCnt cs (10 * acc + charDigit c) (cnt + 1)
      else (acc, cnt, c :: cs)

/-- Parse an unsigned decimal magnitude: integer digits and an optional
fractional part; the digits are kept literally, so `2.50` parses to the
mantissa 250 with two fractional digits. -/
def parseNumMag (input : List Char) : Option ((ℕ × ℕ) × List Char) :=
  match input with
  | c :: cs =>
      if isDigit c then
        let ip := parseDigitsCnt (c :: cs) 0 0
        match ip.2.2 with
        | '.' :: c2 :: cs2 =>
            if isDigit c2 then
              let fp := parseDigitsCnt (c2 :: cs2) 0 0
              some ((ip.1 * 10 ^ fp.2.1 + fp.1, fp.2.1), fp.2.2)
            else none
        | rest => some ((ip.1, 0), rest)
      else none
  | [] => none

/-- Parse a decimal number literal: an optional minus sign before the
unsigned magnitude. -/
def parseNumber (input : List Char) : Option (JVal × List Char) :=
  match input with
  | '-' :: cs => (parseNumMag cs).map fun r => (.jnum (-(r.1.1 : ℤ)) r.1.2, r.2)
  | cs => (parseNumMag cs).map fun r => (.jnum (r.1.1 : ℤ) r.1.2, r.2)

mutual
/-- Recursive-descent JSON value parser with an explicit recursion budget;
returns the value and the unconsumed suffix. -/
def parseVal : ℕ → List Char → Option (JVal × List Char)
  | 0, _ => none
  | fuel + 1, input =>
      match skipWs input with
      | [] => none
      | c :: cs =>
          if c = 'n' then
            match cs with
            | 'u' :: 'l' :: 'l' :: rest => some (.jnull, rest)
            | _ => none
          else if c = 't' then
            match cs with
            | 'r' :: 'u' :: 'e' :: rest => some (.jbool true, rest)
            | _ => none
          else if c = 'f' then
            match cs with
            | 'a' :: 'l' :: 's' :: 'e' :: rest => some (.jbool false, rest)
            | _ => none
          else if c = '"' then (parseStrBody cs).map fun r => (.jstr r.1, r.2)
          else if c = '[' then
            match skipWs cs with
            | ']' :: rest => some (.jarr [], rest)
            | rest2 => (parseItems fuel rest2).map fun r => (.jarr r.1, r.2)
          else if c = '{' then
            match skipWs cs with
            | '}' :: rest => some (.jobj [], rest)
            | rest2 => (parseFields fuel rest2).map fun r => (.jobj r.1, r.2)
          else parseNumber (c :: cs)

/-- Parse the elements of a non-empty array up to and including the closing
bracket. -/
def parseItems : ℕ → List Char → Option (List JVal × List Char)
  | 0, _ => none
  | fuel + 1, input =>
      match parseVal fuel input with
      | none => none
      | some (v, rest) =>
          match skipWs rest with
          | ',' :: rest2 => (parseItems fuel rest2).map fun r => (v :: r.1, r.2)
          | ']' :: rest2 => some ([v], rest2)
          | _ => none

/-- Parse the fields of a non-empty object up to and including the closing
brace. -/
def parseFields : ℕ → List Char → Option (List (List Char × JVal) × List Char)
  | 0, _ => none
  | fuel + 1, input =>
      match skipWs input with
      | [] => none
      | c :: cs =>
          if c = '"' then
            match parseStrBody cs with
            | none => none
            | some (k, rest) =>
                match skipWs rest with
                | ':' :: rest2 =>
                    match parseVal fuel rest2 with
                    | none => none
                    | some (v, rest3) =>
                        match skipWs rest3 with
                        | ',' :: rest4 =>
                            (parseFields fuel rest4).map fun r => ((k, v) :: r.1, r.2)
                        | '}' :: rest4 => some ([(k, v)], rest4)
                        | _ => none
                | _ => none
          else none
end

/-- `JSON.parse`: parse a whole text, requiring only whitespace to remain.
The budget `2 * length + 2` covers any nesting a text of this length can
express. -/
def JSONparse (s : List Char) : Option JVal :=
  match parseVal (2 * s.length + 2) s with
  | some (v, rest) => if skipWs rest = [] then some v else none
  | none => none

/-- `handleMinifiedExport`'s transformation of the serialized stage text:
`JSON.stringify(JSON.parse(json))`; `none` models the exception `JSON.parse`
throws on malformed input. -/
def handleMinifiedExport (json : List Char) : Option (List Char) :=
  (JSONparse json).map stringify

mutual
/-- A structural size measure for JSON values, used to bound the parser
budget needed to reparse a rendered value. -/
def jsize : JVal → ℕ
  | .jnull => 1
  | .jbool _ => 1
  | .jnum _ _ => 1
  | .jstr _ => 1
  | .jarr vs => 2 + jsizeList vs
  | .jobj kvs => 2 + jsizeFields kvs

/-- Size measure for array elements. -/
def jsizeList : List JVal → ℕ
  | [] => 0
  | v :: vs => 2 + jsize v + jsizeList vs

/-- Size measure for object fields. -/
def jsizeFields : List (List Char × JVal) → ℕ
  | [] => 0
  | kv :: kvs => 2 + jsize kv.2 + jsizeFields kvs
end

/-- UTF-8 byte width of one character. -/
def charBytes (c : Char) : ℕ :=
  if c.toNat < 128 then 1 else if c.toNat < 2048 then 2 else if c.toNat < 65536 then 3 else 4

/-- UTF-8 byte length of a text, the `Blob.size` the page reports. -/
def utf8Len (s : List Char) : ℕ := (s.map charBytes).sum

/-- True when the input does not continue a number literal: the guard under
which a parsed number is followed by `rest` untouched. -/
def numGuard : List Char → Bool
  | [] => true
  | c :: _ => !isDigit c && c != '.'

mutual
/-- `JSON.stringify` with a two-space indent: the formatted rendering whose
only difference from `stringify` is inserted insignificant whitespace. -/
def pretty : ℕ → JVal → List Char
  | _, .jnull => ['n', 'u', 'l', 'l']
  | _, .jbool true => ['t', 'r', 'u', 'e']
  | _, .jbool false => ['f', 'a', 'l', 's', 'e']
  | _, .jnum m e => renderDec m e
  | _, .jstr s => renderStr s
  | _, .jarr [] => ['[', ']']
  | ind, .jarr (v :: vs) =>
      '[' :: '\n' :: (List.replicate (ind + 2) ' ' ++ pretty (ind + 2) v ++
        prettyItems (ind + 2) vs ++ '\n' :: List.replicate ind ' ' ++ [']'])
  | _, .jobj [] => ['{', '}']
  | ind, .jobj (kv :: kvs) =>
      '{' :: '\n' :: (List.replicate (ind + 2) ' ' ++ renderStr kv.1 ++ ':' :: ' ' ::
        pretty (ind + 2) kv.2 ++ prettyFields (ind + 2) kvs ++
        '\n' :: List.replicate ind ' ' ++ ['}'])

/-- Remaining array elements in the formatted rendering. -/
def prettyItems : ℕ → List JVal → List Char
  | _, [] => []
  | ind, v :: vs =>
      ',' :: '\n' :: (List.replicate ind ' ' ++ pretty ind v ++ prettyItems ind vs)

/-- Remaining object fields in the formatted rendering. -/
def prettyFields : ℕ → List (List Char × JVal) → List Char
  | _, [] => []
  | ind, kv :: kvs =>
      ',' :: '\n' :: (List.replicate ind ' ' ++ renderStr kv.1 ++ ':' :: ' ' ::
        pretty ind kv.2 ++ prettyFields ind kvs)
end

/-- The JSON number for a rational whose reduced denominator divides 100:
the only denominators the generator and the export handlers can produce
(coordinates, rotations and ids are integers; template values are scaled by
`size / 100`).  Rendered exactly as `JSON.stringify` renders the
corresponding double. -/
def ratJVal (q : ℚ) : JVal :=
  let e : ℕ := if q.den = 1 then 0 else if q.den ∣ 10 then 1 else 2
  .jnum (q * 10 ^ e).num e

/-- The JSON value of one template attribute. -/
def attrJVal : JAttr → JVal
  | .num q => ratJVal q
  | .str s => .jstr s.data

/-- Modelled from the spec: the Regular strategy serializes every shape with
every attribute, no field omission and no key abbreviation (§4.2); the Konva
`stage.toJSON()` implementation that produces this tree is not part of this
repository.  One shape becomes an object holding all its fields, in the
insertion order of `generateShapes`. -/
def fullShapeJVal (sh : Shape) : JVal :=
  .jobj ([("id".data, .jstr sh.id.data),
          ("x".data, ratJVal sh.x),
          ("y".data, ratJVal sh.y),
          ("fill".data, .jstr sh.fill.data),
          ("rotation".data, ratJVal sh.rotation),
          ("type".data, .jstr sh.type.data),
          ("shadowBlur".data, ratJVal sh.shadowBlur),
          ("opacity".data, ratJVal sh.opacity)] ++
        sh.attrs.map fun kv => (kv.1.data, attrJVal kv.2))

/-- Modelled from the spec: the full scene tree serialized by the Regular
and Minified strategies — every shape with every attribute. -/
def sceneJVal (shapes : List Shape) : JVal := .jarr (shapes.map fullShapeJVal)

/-- One entry of the serialized optimized `shapes` array. -/
def optShapeJVal (o : OptShape) : JVal :=
  .jobj [("i".data, .jstr o.i.data),
         ("x".data, ratJVal o.x),
         ("y".data, ratJVal o.y),
         ("f".data, .jstr o.f.data),
         ("r".data, ratJVal o.r),
         ("t".data, .jstr o.t.data)]

/-- The serialized form of the `d` header (`SHAPE_DEFAULTS`). -/
def defaultsJVal (d : List (String × List (String × JAttr))) : JVal :=
  .jobj (d.map fun kv => (kv.1.data, .jobj (kv.2.map fun kv2 => (kv2.1.data, attrJVal kv2.2))))

/-- The JSON object `{ v, c, d, s }` passed to `JSON.stringify` by the
optimized and compressed exports. -/
def optPayloadJVal (p : OptPayload) : JVal :=
  .jobj [("v".data, .jnum (p.v : ℤ) 0),
         ("c".data, .jobj [("shadowBlur".data, ratJVal p.c.shadowBlur),
                           ("opacity".data, ratJVal p.c.opacity)]),
         ("d".data, defaultsJVal p.d),
         ("s".data, .jarr (p.s.map optShapeJVal))]

/-- Modelled from the spec: the Regular export's byte text, the formatted
serialization of the full scene tree. -/
def encodeRegular (shapes : List Shape) : List Char := pretty 0 (sceneJVal shapes)

/-- Modelled from the spec: the Minified export's byte text — the same scene
tree with insignificant whitespace removed (`JSON.stringify(JSON.parse(json))`
in the source). -/
def encodeMinified (shapes : List Shape) : List Char := stringify (sceneJVal shapes)

/-- The Optimized export's byte text: `JSON.stringify` of the payload built
by `handleOptimizedExport`. -/
def encodeOptimized (shapes : List Shape) : List Char :=
  stringify (optPayloadJVal (handleOptimizedExport shapes))

/-- The decode failures named by the specification (§7). -/
inductive DecodeError where
  | unsupportedVersion : DecodeError
  | tagAmbiguity : DecodeError
  | constructionError : DecodeError
deriving DecidableEq, Repr

/-- A shape reconstructed by the lossy optimized decode: exact kind,
position, fill and rotation; nominal (unscaled) template attributes. -/
structure DecodedShape where
  id : String
  x : ℚ
  y : ℚ
  fill : String
  rotation : ℚ
  type : String
  attrs : List (String × JAttr)
deriving DecidableEq, Repr

/-- Modelled from the spec: recover a kind from its single-character tag
(§4.4); the tag `"t"` is shared by `text` and `triangle` and must surface a
`TagAmbiguityError` rather than guess (§7). -/
def tagToKind (t : String) : Except DecodeError String :=
  if t = "r" then .ok "rect"
  else if t = "c" then .ok "circle"
  else if t = "s" then .ok "star"
  else if t = "h" then .ok "hexagon"
  else if t = "t" then .error .tagAmbiguity
  else .error .constructionError

/-- Version check: the decoder recognizes exactly the JSON number `1`. -/
def isVersion1 : JVal → Bool
  | .jnum 1 0 => true
  | _ => false

/-- An optimized-format payload as read back from JSON, before validation:
the version field may hold an arbitrary JSON value. -/
structure RawOptPayload where
  v : JVal
  c : CommonProps
  d : List (String × List (String × JAttr))
  s : List OptShape

/-- Modelled from the spec: the repository ships no decoder, so this is the
decode contract of §4.4/§7 — reject an unrecognized `version` with
`UnsupportedVersionError` before reading any shape, recover each kind from
its tag, and rebuild shapes with exact id/position/fill/rotation and the
nominal template attributes (lossy). -/
def decodeOptimized (p : RawOptPayload) : Except DecodeError (List DecodedShape) :=
  if isVersion1 p.v then
    p.s.mapM fun o =>
      match tagToKind o.t with
      | .ok kind =>
          .ok { id := o.i, x := o.x, y := o.y, fill := o.f, rotation := o.r,
                type := kind, attrs := (p.d.lookup kind).getD [] }
      | .error e => .error e
  else
    .error .unsupportedVersion

/-- `handleOptimizedExport` as a transformer of the page state: the handler
reads the `shapes` store and builds the payload; the store it leaves behind
is rebuilt by the same traversal, making the absence of mutation a theorem
about the traversal rather than a convention. -/
def optimizeLoop : List Shape → List OptShape × List Shape
  | [] => ([], [])
  | sh :: rest =>
      let d := optimizeLoop rest
      (optimizeShape sh :: d.1, sh :: d.2)

/-- The compressed-export loop as a state transformer, threading `lastX`,
`lastY` and re-emitting the traversed store. -/
def compressLoop (lastX lastY : ℚ) : List Shape → List OptShape × List Shape
  | [] => ([], [])
  | sh :: rest =>
      let d := compressLoop sh.x sh.y rest
      ({ i := sh.id, x := sh.x - lastX, y := sh.y - lastY,
         f := sh.fill, r := sh.rotation, t := charAt0 sh.type } :: d.1, sh :: d.2)

/-- `handleRegularExport` over the page state: it serializes the stage text
and touches no shape. -/
def runRegularExport (stageJson : List Char) (shapes : List Shape) :
    List Char × List Shape :=
  (stageJson, shapes)

/-- `handleMinifiedExport` over the page state. -/
def runMinifiedExport (stageJson : List Char) (shapes : List Shape) :
    Option (List Char) × List Shape :=
  (handleMinifiedExport stageJson, shapes)

/-- `handleOptimizedExport` over the page state. -/
def runOptimizedExport (shapes : List Shape) : OptPayload × List Shape :=
  let d := optimizeLoop shapes
  ({ v := 1, c := COMMON_PROPS, d := SHAPE_DEFAULTS, s := d.1 }, d.2)

/-- `handleCompressedExport` over the page state. -/
def runCompressedExport (shapes : List Shape) : OptPayload × List Shape :=
  let d := compressLoop 0 0 shapes
  ({ v := 1, c := COMMON_PROPS, d := SHAPE_DEFAULTS, s := d.1 }, d.2)

/-- A concrete shape for witnesses: a rect at (10, 20). -/
def sampleRect : Shape :=
  { id := "0", x := 10, y := 20, fill := "#F00", rotation := 45, type := "rect",
    shadowBlur := 5, opacity := 3 / 4, attrs := scaleAttrs 100 (lookupDefaults "rect") }

/-- A concrete shape for witnesses: a circle at (15, 5). -/
def sampleCircle : Shape :=
  { id := "1", x := 15, y := 5, fill := "#0F0", rotation := 90, type := "circle",
    shadowBlur := 5, opacity := 3 / 4, attrs := scaleAttrs 100 (lookupDefaults "circle") }

/-- A concrete shape for witnesses: a star at (100, 100). -/
def sampleStar : Shape :=
  { id := "2", x := 100, y := 100, fill := "#00F", rotation := 180, type := "star",
    shadowBlur := 5, opacity := 3 / 4, attrs := scaleAttrs 100 (lookupDefaults "star") }

/-- A concrete shape for the tag-collision exhibit: a text shape. -/
def sampleText : Shape :=
  { id := "3", x := 1, y := 2, fill := "#FF0", rotation := 0, type := "text",
    shadowBlur := 5, opacity := 3 / 4, attrs := scaleAttrs 100 (lookupDefaults "text") }

/-- A concrete shape for the tag-collision exhibit: a triangle. -/
def sampleTriangle : Shape :=
  { id := "4", x := 3, y := 4, fill := "#F0F", rotation := 0, type := "triangle",
    shadowBlur := 5, opacity := 3 / 4, attrs := scaleAttrs 100 (lookupDefaults "triangle") }

/-- The spec's example input: an optimized-format payload whose version
field holds the unrecognized value `"99"`. -/
def rawPayload99 : RawOptPayload :=
  { v := .jstr "99".data, c := COMMON_PROPS, d := SHAPE_DEFAULTS,
    s := [optimizeShape sampleRect] }

/-! Theorems. -/

theorem compressShapes_length (shapes : List Shape) :
    ∀ lastX lastY : ℚ, (compressShapes lastX lastY shapes).length = shapes.length := by
  induction shapes with
  | nil => intro _ _; rfl
  | cons sh rest ih => intro lastX lastY; simp [compressShapes, ih]

theorem reconstructX_compress (shapes : List Shape) :
    ∀ lastX lastY : ℚ,
      reconstructX lastX (compressShapes lastX lastY shapes) = shapes.map fun sh => sh.x := by
  induction shapes with
  | nil => intro _ _; rfl
  | cons sh rest ih =>
      intro lastX lastY
      have h : lastX + (sh.x - lastX) = sh.x := by ring
      simp [compressShapes, reconstructX, h, ih sh.x sh.y]

theorem reconstructY_compress (shapes : List Shape) :
    ∀ lastX lastY : ℚ,
      reconstructY lastY (compressShapes lastX lastY shapes) = shapes.map fun sh => sh.y := by
  induction shapes with
  | nil => intro _ _; rfl
  | cons sh rest ih =>
      intro lastX lastY
      have h : lastY + (sh.y - lastY) = sh.y := by ring
      simp [compressShapes, reconstructY, h, ih sh.x sh.y]

theorem compressShapes_get (shapes : List Shape) :
    ∀ (lastX lastY : ℚ) (i : ℕ)
      (hi : i < (compressShapes lastX lastY shapes).length) (hi' : i < shapes.length)
      (hp : i - 1 < shapes.length),
      (compressShapes lastX lastY shapes).get ⟨i, hi⟩ =
        { i := (shapes.get ⟨i, hi'⟩).id,
          x := (shapes.get ⟨i, hi'⟩).x -
            (if i = 0 then lastX else (shapes.get ⟨i - 1, hp⟩).x),
          y := (shapes.get ⟨i, hi'⟩).y -
            (if i = 0 then lastY else (shapes.get ⟨i - 1, hp⟩).y),
          f := (shapes.get ⟨i, hi'⟩).fill,
          r := (shapes.get ⟨i, hi'⟩).rotation,
          t := charAt0 (shapes.get ⟨i, hi'⟩).type } := by
  induction shapes with
  | nil => intro _ _ i _ hi' _; exact absurd hi' (by simp)
  | cons sh rest ih =>
      intro lastX lastY i hi hi' hp
      match i with
      | 0 => rfl
      | Nat.succ j =>
          have hj : j < (compressShapes sh.x sh.y rest).length := by
            simpa [compressShapes, Nat.succ_lt_succ_iff] using hi
          have hj' : j < rest.length := by simpa [Nat.succ_lt_succ_iff] using hi'
          have hjp : j - 1 < rest.length := by omega
          have := ih sh.x sh.y j hj hj' hjp
          simp only [compressShapes, List.get] at this ⊢
          rw [this]
          match j with
          | 0 => simp [List.get]
          | Nat.succ k => simp [List.get]

theorem optimizeLoop_spec (shapes : List Shape) :
    optimizeLoop shapes = (shapes.map optimizeShape, shapes) := by
  induction shapes with
  | nil => rfl
  | cons sh rest ih => simp [optimizeLoop, ih]

theorem compressLoop_spec (shapes : List Shape) :
    ∀ lastX lastY : ℚ,
      compressLoop lastX lastY shapes = (compressShapes lastX lastY shapes, shapes) := by
  induction shapes with
  | nil => intro _ _; rfl
  | cons sh rest ih => intro lastX lastY; simp [compressLoop, compressShapes, ih]

/-- C2 -/
theorem compressed_delta_spec (shapes : List Shape) (hne : shapes ≠ []) :
    (handleCompressedExport shapes).s.length = shapes.length ∧
    (∀ (i : ℕ) (hi : i < (handleCompressedExport shapes).s.length)
       (hi' : i < shapes.length) (hp : i - 1 < shapes.length),
      (((handleCompressedExport shapes).s.get ⟨i, hi⟩).x =
          (shapes.get ⟨i, hi'⟩).x - (if i = 0 then 0 else (shapes.get ⟨i - 1, hp⟩).x)) ∧
      (((handleCompressedExport shapes).s.get ⟨i, hi⟩).y =
          (shapes.get ⟨i, hi'⟩).y - (if i = 0 then 0 else (shapes.get ⟨i - 1, hp⟩).y))) ∧
    reconstructX 0 (handleCompressedExport shapes).s = shapes.map (fun sh => sh.x) ∧
    reconstructY 0 (handleCompressedExport shapes).s = shapes.map (fun sh => sh.y) ∧
    (shapes.map (fun sh => (sh.x, sh.y)) = [(10, 20), (15, 5), (100, 100)] →
      (handleCompressedExport shapes).s.map (fun o => o.x) = [10, 5, 85] ∧
      (handleCompressedExport shapes).s.map (fun o => o.y) = [20, -15, 95]) := by
  refine ⟨compressShapes_length shapes 0 0, ?_, reconstructX_compress shapes 0 0,
    reconstructY_compress shapes 0 0, ?_⟩
  · intro i hi hi' hp
    have h := compressShapes_get shapes 0 0 i hi hi' hp
    constructor
    · show ((compressShapes 0 0 shapes).get ⟨i, hi⟩).x = _
      rw [h]
    · show ((compressShapes 0 0 shapes).get ⟨i, hi⟩).y = _
      rw [h]
  · intro hxy
    have hlen : shapes.length = 3 := by
      have := congrArg List.length hxy
      simpa using this
    obtain ⟨a, b, c, rfl⟩ := List.length_eq_three.mp hlen
    simp only [List.map_cons, List.map_nil, List.cons.injEq, Prod.mk.injEq] at hxy
    obtain ⟨⟨hax, hay⟩, ⟨hbx, hby⟩, ⟨hcx, hcy⟩, _⟩ := hxy
    simp [handleCompressedExport, compressShapes, hax, hay, hbx, hby, hcx, hcy]
    norm_num

/-- C2 witness -/
theorem compressed_delta_spec_witness :
    reconstructX 0 (handleCompressedExport [sampleRect, sampleCircle, sampleStar]).s =
      [sampleRect, sampleCircle, sampleStar].map (fun sh => sh.x) :=
  (compressed_delta_spec [sampleRect, sampleCircle, sampleStar] (by simp)).2.2.1

/-- C1 exhibit -/
theorem tag_collision_text_triangle :
    sampleText.type = "text" ∧ sampleTriangle.type = "triangle" ∧
    sampleText.type ≠ sampleTriangle.type ∧
    (handleOptimizedExport [sampleText, sampleTriangle]).s.map (fun o => o.t) = ["t", "t"] :=
  ⟨rfl, rfl, by decide, rfl⟩

/-- C4 -/
theorem optimized_payload_spec (shapes : List Shape) :
    (handleOptimizedExport shapes).v = 1 ∧
    (handleOptimizedExport shapes).c = COMMON_PROPS ∧
    (handleOptimizedExport shapes).d = SHAPE_DEFAULTS ∧
    (handleOptimizedExport shapes).s = shapes.map (fun sh =>
      { i := sh.id, x := sh.x, y := sh.y, f := sh.fill, r := sh.rotation,
        t := charAt0 sh.type }) :=
  ⟨rfl, rfl, rfl, rfl⟩

/-- C7 -/
theorem compressed_matches_optimized (shapes : List Shape) :
    (handleCompressedExport shapes).v = (handleOptimizedExport shapes).v ∧
    (handleCompressedExport shapes).c = (handleOptimizedExport shapes).c ∧
    (handleCompressedExport shapes).d = (handleOptimizedExport shapes).d ∧
    (handleCompressedExport shapes).s.length = (handleOptimizedExport shapes).s.length ∧
    ∀ (i : ℕ) (hc : i < (handleCompressedExport shapes).s.length)
      (ho : i < (handleOptimizedExport shapes).s.length)
      (hp : i - 1 < (handleOptimizedExport shapes).s.length),
      (((handleCompressedExport shapes).s.get ⟨i, hc⟩).i =
        ((handleOptimizedExport shapes).s.get ⟨i, ho⟩).i) ∧
      (((handleCompressedExport shapes).s.get ⟨i, hc⟩).f =
        ((handleOptimizedExport shapes).s.get ⟨i, ho⟩).f) ∧
      (((handleCompressedExport shapes).s.get ⟨i, hc⟩).r =
        ((handleOptimizedExport shapes).s.get ⟨i, ho⟩).r) ∧
      (((handleCompressedExport shapes).s.get ⟨i, hc⟩).t =
        ((handleOptimizedExport shapes).s.get ⟨i, ho⟩).t) ∧
      (((handleCompressedExport shapes).s.get ⟨i, hc⟩).x =
        ((handleOptimizedExport shapes).s.get ⟨i, ho⟩).x -
          (if i = 0 then 0 else ((handleOptimizedExport shapes).s.get ⟨i - 1, hp⟩).x)) ∧
      (((handleCompressedExport shapes).s.get ⟨i, hc⟩).y =
        ((handleOptimizedExport shapes).s.get ⟨i, ho⟩).y -
          (if i = 0 then 0 else ((handleOptimizedExport shapes).s.get ⟨i - 1, hp⟩).y)) := by
  have hlen : (handleCompressedExport shapes).s.length = (handleOptimizedExport shapes).s.length := by
    simp [handleCompressedExport, handleOptimizedExport, compressShapes_length shapes 0 0]
  refine ⟨rfl, rfl, rfl, hlen, ?_⟩
  intro i hc ho hp
  have hi' : i < shapes.length := by simpa [handleOptimizedExport] using ho
  have hp' : i - 1 < shapes.length := by simpa [handleOptimizedExport] using hp
  have hco := compressShapes_get shapes 0 0 i hc hi' hp'
  have hopt : ∀ (j : ℕ) (hj : j < (handleOptimizedExport shapes).s.length)
      (hj' : j < shapes.length),
      (handleOptimizedExport shapes).s.get ⟨j, hj⟩ = optimizeShape (shapes.get ⟨j, hj'⟩) := by
    intro j hj hj'
    simp [handleOptimizedExport, List.get_eq_getElem]
  have hx : ((handleCompressedExport shapes).s.get ⟨i, hc⟩) =
      { i := (shapes.get ⟨i, hi'⟩).id,
        x := (shapes.get ⟨i, hi'⟩).x - (if i = 0 then 0 else (shapes.get ⟨i - 1, hp'⟩).x),
        y := (shapes.get ⟨i, hi'⟩).y - (if i = 0 then 0 else (shapes.get ⟨i - 1, hp'⟩).y),
        f := (shapes.get ⟨i, hi'⟩).fill,
        r := (shapes.get ⟨i, hi'⟩).rotation,
        t := charAt0 (shapes.get ⟨i, hi'⟩).type } := hco
  rw [hx, hopt i ho hi']
  refine ⟨rfl, rfl, rfl, rfl, ?_, ?_⟩
  · by_cases h0 : i = 0
    · simp [h0, optimizeShape]
    · simp [h0, optimizeShape, handleOptimizedExport]
  · by_cases h0 : i = 0
    · simp [h0, optimizeShape]
    · simp [h0, optimizeShape, handleOptimizedExport]

/-- C7 witness -/
theorem compressed_matches_optimized_witness :
    ((handleCompressedExport [sampleRect]).s.get ⟨0, Nat.zero_lt_succ 0⟩).t =
      ((handleOptimizedExport [sampleRect]).s.get ⟨0, Nat.zero_lt_succ 0⟩).t := by
  have h := (compressed_matches_optimized [sampleRect]).2.2.2.2 0
    (Nat.zero_lt_succ 0) (Nat.zero_lt_succ 0) (Nat.zero_lt_succ 0)
  exact h.2.2.2.1

/-- C9 -/
theorem exports_do_not_mutate (stageJson : List Char) (shapes : List Shape) :
    (runRegularExport stageJson shapes).2 = shapes ∧
    (runMinifiedExport stageJson shapes).2 = shapes ∧
    (runOptimizedExport shapes).2 = shapes ∧
    (runCompressedExport shapes).2 = shapes ∧
    (runOptimizedExport shapes).1 = handleOptimizedExport shapes ∧
    (runCompressedExport shapes).1 = handleCompressedExport shapes := by
  refine ⟨rfl, rfl, ?_, ?_, ?_, ?_⟩ <;>
    simp [runOptimizedExport, runCompressedExport, optimizeLoop_spec,
      compressLoop_spec, handleOptimizedExport, handleCompressedExport]

theorem getRandomInt_bounds (r : ℚ) (lo hi : ℤ) (h0 : 0 ≤ r) (h1 : r < 1) (hle : lo ≤ hi) :
    lo ≤ getRandomInt r lo hi ∧ getRandomInt r lo hi ≤ hi := by
  unfold getRandomInt
  have hn : (0 : ℚ) < (hi : ℚ) - (lo : ℚ) + 1 := by
    have : (lo : ℚ) ≤ (hi : ℚ) := by exact_mod_cast hle
    linarith
  constructor
  · have : (0 : ℤ) ≤ ⌊r * ((hi : ℚ) - (lo : ℚ) + 1)⌋ :=
      Int.floor_nonneg.mpr (mul_nonneg h0 hn.le)
    omega
  · have hlt : r * ((hi : ℚ) - (lo : ℚ) + 1) < ((hi - lo + 1 : ℤ) : ℚ) := by
      push_cast
      calc r * ((hi : ℚ) - (lo : ℚ) + 1) < 1 * ((hi : ℚ) - (lo : ℚ) + 1) :=
            mul_lt_mul_of_pos_right h1 hn
        _ = (hi : ℚ) - (lo : ℚ) + 1 := by ring
    have := Int.floor_lt.mpr hlt
    omega

theorem floor_scaled_toNat_lt (r : ℚ) (n : ℕ) (_h0 : 0 ≤ r) (h1 : r < 1) (hn : 0 < n) :
    (⌊r * (n : ℚ)⌋).toNat < n := by
  have hpos : (0 : ℚ) < (n : ℚ) := by exact_mod_cast hn
  have hlt : r * (n : ℚ) < ((n : ℤ) : ℚ) := by
    push_cast
    calc r * (n : ℚ) < 1 * (n : ℚ) := mul_lt_mul_of_pos_right h1 hpos
      _ = (n : ℚ) := by ring
  have h2 := Int.floor_lt.mpr hlt
  omega

theorem shapeTypes_getD_mem : ∀ k : ℕ, k < 6 → shapeTypes.getD k "" ∈ shapeTypes := by decide

theorem colors_getD_mem : ∀ k : ℕ, k < 6 → colors.getD k "" ∈ colors := by decide

/-- C5 -/
theorem generateShapes_spec (rng : Rng) (count : ℕ) (W H : ℤ)
    (hW : 0 ≤ W) (hH : 0 ≤ H) (hr : RngValid rng) :
    (generateShapesWith rng count W H).length = count ∧
    ∀ (i : ℕ) (hi : i < (generateShapesWith rng count W H).length),
      ((generateShapesWith rng count W H).get ⟨i, hi⟩).type ∈ shapeTypes ∧
      ((generateShapesWith rng count W H).get ⟨i, hi⟩).fill ∈ colors ∧
      ((generateShapesWith rng count W H).get ⟨i, hi⟩).id = toString i ∧
      (∃ n : ℤ, ((generateShapesWith rng count W H).get ⟨i, hi⟩).x = (n : ℚ) ∧
        0 ≤ n ∧ n ≤ W) ∧
      (∃ n : ℤ, ((generateShapesWith rng count W H).get ⟨i, hi⟩).y = (n : ℚ) ∧
        0 ≤ n ∧ n ≤ H) ∧
      (∃ n : ℤ, ((generateShapesWith rng count W H).get ⟨i, hi⟩).rotation = (n : ℚ) ∧
        0 ≤ n ∧ n ≤ 360) ∧
      (∃ size : ℤ, 50 ≤ size ∧ size ≤ 150 ∧
        ((generateShapesWith rng count W H).get ⟨i, hi⟩).attrs =
          scaleAttrs size (lookupDefaults
            (((generateShapesWith rng count W H).get ⟨i, hi⟩).type))) := by
  refine ⟨by simp [generateShapesWith], ?_⟩
  intro i hi
  have hget : (generateShapesWith rng count W H).get ⟨i, hi⟩ = generateShape rng W H i := by
    simp [generateShapesWith, List.get_eq_getElem]
  rw [hget]
  obtain ⟨h60, h61⟩ := hr (6 * i)
  obtain ⟨h65a, h65b⟩ := hr (6 * i + 5)
  refine ⟨?_, ?_, rfl, ?_, ?_, ?_, ?_⟩
  · exact shapeTypes_getD_mem _ (by
      have := floor_scaled_toNat_lt (rng (6 * i)) 6 h60 h61 (by omega)
      simpa [shapeTypes] using this)
  · exact colors_getD_mem _ (by
      have := floor_scaled_toNat_lt (rng (6 * i + 5)) 6 h65a h65b (by omega)
      simpa [colors] using this)
  · obtain ⟨ha, hb⟩ := getRandomInt_bounds (rng (6 * i + 1)) 0 W (hr _).1 (hr _).2 hW
    exact ⟨getRandomInt (rng (6 * i + 1)) 0 W, rfl, ha, hb⟩
  · obtain ⟨ha, hb⟩ := getRandomInt_bounds (rng (6 * i + 2)) 0 H (hr _).1 (hr _).2 hH
    exact ⟨getRandomInt (rng (6 * i + 2)) 0 H, rfl, ha, hb⟩
  · obtain ⟨ha, hb⟩ := getRandomInt_bounds (rng (6 * i + 4)) 0 360 (hr _).1 (hr _).2 (by omega)
    exact ⟨getRandomInt (rng (6 * i + 4)) 0 360, rfl, ha, hb⟩
  · obtain ⟨ha, hb⟩ := getRandomInt_bounds (rng (6 * i + 3)) 50 150 (hr _).1 (hr _).2 (by omega)
    exact ⟨getRandomInt (rng (6 * i + 3)) 50 150, ha, hb, rfl⟩

/-- C5 witness -/
theorem generateShapes_spec_witness :
    (generateShapesWith (fun _ => 1 / 2) 3 100 200).length = 3 :=
  (generateShapes_spec (fun _ => 1 / 2) 3 100 200 (by omega) (by omega)
    (fun k => by norm_num)).1

/-- C10 -/
theorem scaling_spec :
    (∀ (size : ℤ) (attrs : List (String × JAttr)) (k sv : String),
        (k, JAttr.str sv) ∈ attrs → (k, JAttr.str sv) ∈ scaleAttrs size attrs) ∧
    (∀ (size : ℤ) (attrs : List (String × JAttr)) (k : String) (v : ℚ),
        (k, JAttr.num v) ∈ attrs →
          (k, JAttr.num (v * (size : ℚ) / 100)) ∈ scaleAttrs size attrs) ∧
    (∀ (rng : Rng) (W H : ℤ) (i : ℕ),
        (generateShape rng W H i).type = "text" →
        (generateShape rng W H i).attrs =
          [("text", JAttr.str starGlyph),
           ("fontSize", JAttr.num ((getRandomInt (rng (6 * i + 3)) 50 150 : ℤ) : ℚ))]) := by
  refine ⟨?_, ?_, ?_⟩
  · intro size attrs k sv hmem
    exact List.mem_map.mpr ⟨(k, JAttr.str sv), hmem, rfl⟩
  · intro size attrs k v hmem
    exact List.mem_map.mpr ⟨(k, JAttr.num v), hmem, rfl⟩
  · intro rng W H i htype
    have : (generateShape rng W H i).attrs =
        scaleAttrs (getRandomInt (rng (6 * i + 3)) 50 150)
          (lookupDefaults ((generateShape rng W H i).type)) := rfl
    rw [this, htype]
    simp +decide [scaleAttrs, lookupDefaults, SHAPE_DEFAULTS, scaleAttr, List.lookup]

/-- C10 witness -/
theorem scaling_spec_witness :
    ("a", JAttr.str "b") ∈ scaleAttrs 2 [("a", JAttr.str "b"), ("c", JAttr.num 5)] :=
  scaling_spec.1 2 [("a", JAttr.str "b"), ("c", JAttr.num 5)] "a" "b" (by simp)

/-- C6 -/
theorem decode_rejects_unknown_version (p : RawOptPayload)
    (h : isVersion1 p.v = false) :
    decodeOptimized p = .error .unsupportedVersion := by
  simp [decodeOptimized, h]

/-- C6 witness -/
theorem decode_rejects_unknown_version_witness :
    decodeOptimized rawPayload99 = .error .unsupportedVersion :=
  decode_rejects_unknown_version rawPayload99 rfl

theorem renderNatAux_acc : ∀ (fuel n : ℕ) (acc : List Char),
    renderNatAux fuel n acc = renderNatAux fuel n [] ++ acc := by
  intro fuel
  induction fuel with
  | zero => intro n acc; rfl
  | succ fuel ih =>
      intro n acc
      by_cases h : n < 10
      · simp [renderNatAux, h]
      · simp only [renderNatAux, if_neg h]
        rw [ih (n / 10) (digitChar (n % 10) :: acc), ih (n / 10) [digitChar (n % 10)]]
        simp

theorem renderNatAux_fuel : ∀ (n fuel fuel' : ℕ), n < fuel → n < fuel' →
    renderNatAux fuel n [] = renderNatAux fuel' n [] := by
  intro n
  induction n using Nat.strong_induction_on with
  | _ n ih =>
      intro fuel fuel' hf hf'
      match fuel, fuel' with
      | f + 1, f' + 1 =>
          by_cases h : n < 10
          · simp [renderNatAux, h]
          · simp only [renderNatAux, if_neg h]
            rw [renderNatAux_acc f, renderNatAux_acc f']
            have hd : n / 10 < n := Nat.div_lt_self (by omega) (by omega)
            rw [ih (n / 10) hd f f' (by omega) (by omega)]

theorem renderNat_eq (n : ℕ) :
    renderNat n = if n < 10 then [digitChar n]
      else renderNat (n / 10) ++ [digitChar (n % 10)] := by
  by_cases h : n < 10
  · simp [renderNat, renderNatAux, h]
  · simp only [renderNat, renderNatAux, if_neg h]
    rw [renderNatAux_acc n]
    have hd : n / 10 < n := Nat.div_lt_self (by omega) (by omega)
    rw [renderNatAux_fuel (n / 10) n (n / 10 + 1) hd (by omega)]
    rfl

theorem renderNat_ne_nil (n : ℕ) : renderNat n ≠ [] := by
  rw [renderNat_eq]
  by_cases h : n < 10 <;> simp [h]

theorem isDigit_digitChar (d : ℕ) (h : d < 10) : isDigit (digitChar d) = true := by
  interval_cases d <;> decide

theorem charDigit_digitChar (d : ℕ) (h : d < 10) : charDigit (digitChar d) = d := by
  interval_cases d <;> decide

theorem renderNat_digits (n : ℕ) : ∀ c ∈ renderNat n, isDigit c = true := by
  induction n using Nat.strong_induction_on with
  | _ n ih =>
      rw [renderNat_eq]
      by_cases h : n < 10
      · simp only [if_pos h, List.mem_singleton]
        rintro c rfl
        exact isDigit_digitChar n h
      · simp only [if_neg h, List.mem_append, List.mem_singleton]
        rintro c (hc | rfl)
        · exact ih (n / 10) (Nat.div_lt_self (by omega) (by omega)) c hc
        · exact isDigit_digitChar (n % 10) (Nat.mod_lt n (by omega))

theorem digitsVal_append (a : ℕ) (u w : List Char) :
    digitsVal a (u ++ w) = digitsVal (digitsVal a u) w := by
  simp [digitsVal, List.foldl_append]

theorem digitsVal_cons (a : ℕ) (c : Char) (w : List Char) :
    digitsVal a (c :: w) = digitsVal (10 * a + charDigit c) w := rfl

theorem digitsVal_shift : ∀ (w : List Char) (a : ℕ),
    digitsVal a w = a * 10 ^ w.length + digitsVal 0 w := by
  intro w
  induction w with
  | nil => intro a; simp [digitsVal]
  | cons c w ih =>
      intro a
      rw [digitsVal_cons, ih (10 * a + charDigit c), digitsVal_cons 0,
        ih (10 * 0 + charDigit c)]
      simp [List.length_cons]
      ring

theorem digitsVal_renderNat (n : ℕ) : digitsVal 0 (renderNat n) = n := by
  induction n using Nat.strong_induction_on with
  | _ n ih =>
      rw [renderNat_eq]
      by_cases h : n < 10
      · simp [if_pos h, digitsVal, charDigit_digitChar n h]
      · rw [if_neg h, digitsVal_append, ih (n / 10) (Nat.div_lt_self (by omega) (by omega)),
          digitsVal_cons, digitsVal]
        simp [charDigit_digitChar (n % 10) (Nat.mod_lt n (by omega))]
        omega

theorem isDigit_not_special (c : Char) (h : isDigit c = true) :
    c ≠ '-' ∧ c ≠ '.' ∧ c ≠ '"' ∧ isWsChar c = false ∧ c ≠ '[' ∧ c ≠ ']' ∧
    c ≠ ',' ∧ c ≠ ':' ∧ c ≠ 'n' ∧ c ≠ 't' ∧ c ≠ 'f' := by
  simp only [isDigit, Bool.and_eq_true, decide_eq_true_eq] at h
  obtain ⟨h1, h2⟩ := h
  have hws : c ≠ ' ' ∧ c ≠ Char.ofNat 10 ∧ c ≠ Char.ofNat 9 ∧ c ≠ Char.ofNat 13 := by
    refine ⟨?_, ?_, ?_, ?_⟩ <;> (intro hc; rw [hc] at h1 h2; revert h1 h2; decide)
  refine ⟨?_, ?_, ?_, ?_, ?_, ?_, ?_, ?_, ?_, ?_, ?_⟩
  case refine_4 =>
    have e10 : ('\n' : Char) = Char.ofNat 10 := by decide
    have e9 : ('\t' : Char) = Char.ofNat 9 := by decide
    have e13 : ('\r' : Char) = Char.ofNat 13 := by decide
    simp [isWsChar, hws.1, e10, e9, e13, hws.2.1, hws.2.2.1, hws.2.2.2]
  all_goals (intro hc; rw [hc] at h1 h2; revert h1 h2; decide)

theorem renderNat_head_digit (n : ℕ) :
    ∃ c cs, renderNat n = c :: cs ∧ isDigit c = true := by
  match h : renderNat n with
  | [] => exact absurd h (renderNat_ne_nil n)
  | c :: cs =>
      exact ⟨c, cs, rfl, renderNat_digits n c (by rw [h]; exact List.mem_cons_self c cs)⟩

theorem parseDigitsCnt_run : ∀ (ds rest : List Char) (acc cnt : ℕ),
    (∀ c ∈ ds, isDigit c = true) →
    (∀ c, rest.head? = some c → isDigit c = false) →
    parseDigitsCnt (ds ++ rest) acc cnt = (digitsVal acc ds, cnt + ds.length, rest) := by
  intro ds
  induction ds with
  | nil =>
      intro rest acc cnt _ hrest
      match rest with
      | [] => rfl
      | c :: rs =>
          have := hrest c rfl
          simp [parseDigitsCnt, this, digitsVal]
  | cons c cs ih =>
      intro rest acc cnt hds hrest
      have hc : isDigit c = true := hds c (List.mem_cons_self c cs)
      simp only [List.cons_append, parseDigitsCnt, hc, if_pos, List.append_eq]
      rw [ih rest (10 * acc + charDigit c) (cnt + 1)
        (fun x hx => hds x (List.mem_cons_of_mem c hx)) hrest]
      simp [digitsVal_cons]
      omega

theorem padLeft_digits (ds : List Char) (k : ℕ) (h : ∀ c ∈ ds, isDigit c = true) :
    ∀ c ∈ padLeft ds k, isDigit c = true := by
  intro c hc
  rcases List.mem_append.mp hc with hr | hd
  · have := List.eq_of_mem_replicate hr
    subst this
    decide
  · exact h c hd

theorem padLeft_val (ds : List Char) (k : ℕ) :
    digitsVal 0 (padLeft ds k) = digitsVal 0 ds := by
  unfold padLeft
  rw [digitsVal_append]
  congr 1
  induction (k - ds.length) with
  | zero => rfl
  | succ j ih => simpa [List.replicate_succ, digitsVal_cons] using ih

theorem padLeft_length (ds : List Char) (k : ℕ) :
    (padLeft ds k).length = max k ds.length := by
  simp [padLeft]
  omega

theorem padLeft_ne_nil (ds : List Char) (k : ℕ) (h : ds ≠ []) : padLeft ds k ≠ [] := by
  intro hcon
  have := congrArg List.length hcon
  rw [padLeft_length] at this
  simp at this
  exact h this.2

theorem numGuard_head (rest : List Char) (hg : numGuard rest = true) :
    ∀ c, rest.head? = some c → isDigit c = false ∧ c ≠ '.' := by
  intro c hc
  match rest, hc with
  | r :: rs, hc =>
      have : r = c := by simpa using hc
      subst this
      simp only [numGuard, Bool.and_eq_true, Bool.not_eq_true', bne_iff_ne] at hg
      exact hg

theorem parseNumMag_int (ds rest : List Char) (hne : ds ≠ [])
    (hdig : ∀ c ∈ ds, isDigit c = true) (hg : numGuard rest = true) :
    parseNumMag (ds ++ rest) = some ((digitsVal 0 ds, 0), rest) := by
  match ds, hne with
  | c :: cs, _ =>
      have hc : isDigit c = true := hdig c (List.mem_cons_self c cs)
      have hrun := parseDigitsCnt_run (c :: cs) rest 0 0 hdig
        (fun x hx => ((numGuard_head rest hg) x hx).1)
      simp only [List.cons_append] at hrun ⊢
      simp only [parseNumMag, hc, if_pos]
      rw [hrun]
      match rest, hg with
      | [], _ => rfl
      | r :: rs, hg =>
          obtain ⟨hrd, hrdot⟩ := (numGuard_head (r :: rs) hg) r rfl
          split
          · next heq =>
              exfalso
              rw [show ((digitsVal 0 (c :: cs), 0 + (c :: cs).length, r :: rs) :
                ℕ × ℕ × List Char).2.2 = r :: rs from rfl] at heq
              exact hrdot (List.head_eq_of_cons_eq heq)
          · rfl

theorem parseNumMag_frac (ip fp rest : List Char) (hipne : ip ≠ []) (hfpne : fp ≠ [])
    (hipd : ∀ c ∈ ip, isDigit c = true) (hfpd : ∀ c ∈ fp, isDigit c = true)
    (hg : numGuard rest = true) :
    parseNumMag (ip ++ '.' :: (fp ++ rest)) =
      some ((digitsVal 0 ip * 10 ^ fp.length + digitsVal 0 fp, fp.length), rest) := by
  match ip, hipne, fp, hfpne with
  | c :: cs, _, c2 :: cs2, _ =>
      have hc : isDigit c = true := hipd c (List.mem_cons_self c cs)
      have hc2 : isDigit c2 = true := hfpd c2 (List.mem_cons_self c2 cs2)
      have hrun1 := parseDigitsCnt_run (c :: cs) ('.' :: (c2 :: cs2 ++ rest)) 0 0 hipd
        (by intro x hx; simp at hx; subst hx; decide)
      have hrun2 := parseDigitsCnt_run (c2 :: cs2) rest 0 0 hfpd
        (fun x hx => ((numGuard_head rest hg) x hx).1)
      simp only [List.cons_append] at hrun1 hrun2 ⊢
      simp only [parseNumMag, hc, if_pos]
      rw [show c :: (cs ++ '.' :: (c2 :: (cs2 ++ rest))) =
        c :: ((cs ++ ['.']) ++ (c2 :: (cs2 ++ rest))) from by simp] at hrun1 ⊢
      rw [hrun1]
      split
      · next c2h csh heq =>
          have h1 : c2h = c2 := by
            have := List.head_eq_of_cons_eq (List.tail_eq_of_cons_eq heq)
            exact this.symm
          have h2 : csh = cs2 ++ rest := by
            have := List.tail_eq_of_cons_eq (List.tail_eq_of_cons_eq heq)
            exact this.symm
          subst h1 h2
          rw [if_pos hc2, hrun2]
          simp [digitsVal_cons]
      · next hnot =>
          exact absurd rfl (hnot c2 (cs2 ++ rest))

theorem parseNumber_neg_cons (cs : List Char) :
    parseNumber ('-' :: cs) =
      (parseNumMag cs).map fun r => (.jnum (-(r.1.1 : ℤ)) r.1.2, r.2) := rfl

theorem parseNumber_not_neg (c : Char) (cs : List Char) (h : c ≠ '-') :
    parseNumber (c :: cs) =
      (parseNumMag (c :: cs)).map fun r => (.jnum (r.1.1 : ℤ) r.1.2, r.2) := by
  unfold parseNumber
  split
  · next heq => exact absurd (List.head_eq_of_cons_eq heq) h
  · rfl

theorem parseNumMag_renderDecNat (n e : ℕ) (rest : List Char) (hg : numGuard rest = true) :
    parseNumMag (renderDec (n : ℤ) e ++ rest) = some ((n, e), rest) := by
  have hdsd : ∀ c ∈ padLeft (renderNat n) (e + 1), isDigit c = true :=
    padLeft_digits (renderNat n) (e + 1) (renderNat_digits n)
  have hdsv : digitsVal 0 (padLeft (renderNat n) (e + 1)) = n := by
    rw [padLeft_val, digitsVal_renderNat]
  have hdsl : e + 1 ≤ (padLeft (renderNat n) (e + 1)).length := by
    rw [padLeft_length]; omega
  have hdsne : padLeft (renderNat n) (e + 1) ≠ [] :=
    padLeft_ne_nil (renderNat n) (e + 1) (renderNat_ne_nil n)
  rw [renderDec]
  simp only [Int.natAbs_ofNat]
  rw [if_neg (by omega : ¬(n : ℤ) < 0)]
  by_cases he : e = 0
  · subst he
    rw [if_pos rfl]
    simp only [List.nil_append]
    rw [parseNumMag_int (padLeft (renderNat n) 1) rest hdsne hdsd hg, hdsv]
  · rw [if_neg he]
    set ds := padLeft (renderNat n) (e + 1) with hds
    set L := ds.length with hL
    have htake_len : (ds.take (L - e)).length = L - e := by
      rw [List.length_take]; omega
    have hdrop_len : (ds.drop (L - e)).length = e := by
      rw [List.length_drop]; omega
    have htake_ne : ds.take (L - e) ≠ [] := by
      intro hcon
      have := congrArg List.length hcon
      rw [htake_len] at this
      simp at this
      omega
    have hdrop_ne : ds.drop (L - e) ≠ [] := by
      intro hcon
      have := congrArg List.length hcon
      rw [hdrop_len] at this
      simp at this
      omega
    have htd : ds.take (L - e) ++ ds.drop (L - e) = ds := List.take_append_drop _ _
    have hassoc : (ds.take (L - e) ++ '.' :: ds.drop (L - e)) ++ rest =
        ds.take (L - e) ++ '.' :: (ds.drop (L - e) ++ rest) := by simp
    rw [List.nil_append, hassoc,
      parseNumMag_frac (ds.take (L - e)) (ds.drop (L - e)) rest htake_ne hdrop_ne
        (fun c hc => hdsd c (by rw [← htd]; exact List.mem_append_left _ hc))
        (fun c hc => hdsd c (by rw [← htd]; exact List.mem_append_right _ hc)) hg]
    have hval : digitsVal 0 (ds.take (L - e)) * 10 ^ (ds.drop (L - e)).length +
        digitsVal 0 (ds.drop (L - e)) = n := by
      rw [← digitsVal_shift, ← digitsVal_append, htd, hdsv]
    rw [hval, hdrop_len]

theorem renderDecNat_head (n e : ℕ) :
    ∃ c cs, renderDec (n : ℤ) e = c :: cs ∧ isDigit c = true := by
  have hdsd : ∀ c ∈ padLeft (renderNat n) (e + 1), isDigit c = true :=
    padLeft_digits (renderNat n) (e + 1) (renderNat_digits n)
  have hdsl : e + 1 ≤ (padLeft (renderNat n) (e + 1)).length := by
    rw [padLeft_length]; omega
  rw [renderDec]
  simp only [Int.natAbs_ofNat]
  rw [if_neg (by omega : ¬(n : ℤ) < 0), List.nil_append]
  by_cases he : e = 0
  · rw [if_pos he]
    match hm : padLeft (renderNat n) (e + 1),
        padLeft_ne_nil (renderNat n) (e + 1) (renderNat_ne_nil n) with
    | c :: cs, _ =>
        exact ⟨c, cs, rfl, hdsd c (by rw [hm]; exact List.mem_cons_self c cs)⟩
  · rw [if_neg he]
    set ds := padLeft (renderNat n) (e + 1) with hds
    set L := ds.length with hL
    have htake_len : (ds.take (L - e)).length = L - e := by
      rw [List.length_take]; omega
    have htake_ne : ds.take (L - e) ≠ [] := by
      intro hcon
      have := congrArg List.length hcon
      rw [htake_len] at this
      simp at this
      omega
    match hm : ds.take (L - e), htake_ne with
    | c :: cs, _ =>
        refine ⟨c, cs ++ '.' :: ds.drop (L - e), List.cons_append c cs _, ?_⟩
        exact hdsd c (List.mem_of_mem_take (by rw [hm]; exact List.mem_cons_self c cs))

theorem parseNumber_renderDec (m : ℤ) (e : ℕ) (rest : List Char)
    (hg : numGuard rest = true) :
    parseNumber (renderDec m e ++ rest) = some (.jnum m e, rest) := by
  by_cases hm : m < 0
  · have hsign : renderDec m e = '-' :: renderDec (m.natAbs : ℤ) e := by
      rw [renderDec, renderDec]
      simp only [Int.natAbs_ofNat]
      rw [if_pos hm, if_neg (by omega : ¬(m.natAbs : ℤ) < 0)]
      simp
    rw [hsign, List.cons_append, parseNumber_neg_cons,
      parseNumMag_renderDecNat m.natAbs e rest hg]
    have hval : -((m.natAbs : ℕ) : ℤ) = m := by omega
    simp [hval]
    simp [abs_of_neg hm]
  · have hsign : renderDec m e = renderDec (m.natAbs : ℤ) e := by
      conv_lhs => rw [show m = ((m.natAbs : ℕ) : ℤ) from by omega]
    obtain ⟨c, cs, hrd, hcd⟩ := renderDecNat_head m.natAbs e
    rw [hsign, hrd, List.cons_append,
      parseNumber_not_neg c (cs ++ rest) (isDigit_not_special c hcd).1,
      ← List.cons_append, ← hrd, parseNumMag_renderDecNat m.natAbs e rest hg]
    have hval : ((m.natAbs : ℕ) : ℤ) = m := by omega
    simp [hval]

theorem parseStrBody_escape : ∀ (s rest : List Char),
    parseStrBody (escapeList s ++ '"' :: rest) = some (s, rest) := by
  intro s
  induction s with
  | nil =>
      intro rest
      show parseStrBody ('"' :: rest) = some ([], rest)
      rw [parseStrBody.eq_def]
      simp
  | cons c cs ih =>
      intro rest
      by_cases h1 : c = '"'
      · subst h1
        have he : escapeChar '"' = ['\\', '"'] := by decide
        simp only [escapeList, he, List.cons_append, List.append_assoc]
        rw [parseStrBody.eq_def]
        simp +decide [unescape, ih rest]
      · by_cases h2 : c = '\\'
        · subst h2
          have he : escapeChar '\\' = ['\\', '\\'] := by decide
          simp only [escapeList, he, List.cons_append, List.append_assoc]
          rw [parseStrBody.eq_def]
          simp +decide [unescape, ih rest]
        · by_cases h3 : c = '\n'
          · subst h3
            have he : escapeChar '\n' = ['\\', 'n'] := by decide
            simp only [escapeList, he, List.cons_append, List.append_assoc]
            rw [parseStrBody.eq_def]
            simp +decide [unescape, ih rest]
          · by_cases h4 : c = '\t'
            · subst h4
              have he : escapeChar '\t' = ['\\', 't'] := by decide
              simp only [escapeList, he, List.cons_append, List.append_assoc]
              rw [parseStrBody.eq_def]
              simp +decide [unescape, ih rest]
            · by_cases h5 : c = '\r'
              · subst h5
                have he : escapeChar '\r' = ['\\', 'r'] := by decide
                simp only [escapeList, he, List.cons_append, List.append_assoc]
                rw [parseStrBody.eq_def]
                simp +decide [unescape, ih rest]
              · have he : escapeChar c = [c] := by
                  simp [escapeChar, h1, h2, h3, h4, h5]
                simp only [escapeList, he, List.singleton_append]
                rw [parseStrBody.eq_def]
                simp [h1, h2, ih rest]

theorem jsize_pos : ∀ v : JVal, 1 ≤ jsize v := by
  intro v
  match v with
  | .jnull | .jbool _ | .jnum _ _ | .jstr _ => simp [jsize]
  | .jarr vs => simp [jsize]; omega
  | .jobj kvs => simp [jsize]; omega

theorem numGuard_items (vs : List JVal) (rest : List Char) :
    numGuard (stringifyItems vs ++ ']' :: rest) = true := by
  match vs with
  | [] => rfl
  | v :: vs => rfl

theorem numGuard_fields (kvs : List (List Char × JVal)) (rest : List Char) :
    numGuard (stringifyFields kvs ++ '}' :: rest) = true := by
  match kvs with
  | [] => rfl
  | kv :: kvs => rfl

theorem skipWs_not_ws (l : List Char) (h : ∀ c, l.head? = some c → isWsChar c = false) :
    skipWs l = l := by
  match l with
  | [] => rfl
  | c :: cs => simp [skipWs, h c rfl]

theorem skipWs_cons_not_ws (c : Char) (cs : List Char) (h : isWsChar c = false) :
    skipWs (c :: cs) = c :: cs := by
  simp [skipWs, h]

theorem parseVal_succ (fuel : ℕ) (c : Char) (cs : List Char) (hws : isWsChar c = false) :
    parseVal (fuel + 1) (c :: cs) =
      (if c = 'n' then
        match cs with
        | 'u' :: 'l' :: 'l' :: rest => some (.jnull, rest)
        | _ => none
      else if c = 't' then
        match cs with
        | 'r' :: 'u' :: 'e' :: rest => some (.jbool true, rest)
        | _ => none
      else if c = 'f' then
        match cs with
        | 'a' :: 'l' :: 's' :: 'e' :: rest => some (.jbool false, rest)
        | _ => none
      else if c = '"' then (parseStrBody cs).map fun r => (.jstr r.1, r.2)
      else if c = '[' then
        match skipWs cs with
        | ']' :: rest => some (.jarr [], rest)
        | rest2 => (parseItems fuel rest2).map fun r => (.jarr r.1, r.2)
      else if c = '{' then
        match skipWs cs with
        | '}' :: rest => some (.jobj [], rest)
        | rest2 => (parseFields fuel rest2).map fun r => (.jobj r.1, r.2)
      else parseNumber (c :: cs)) := by
  rw [parseVal.eq_def]
  simp only [skipWs_cons_not_ws c cs hws]

theorem parseItems_succ (fuel : ℕ) (input : List Char) :
    parseItems (fuel + 1) input =
      match parseVal fuel input with
      | none => none
      | some (v, rest) =>
          match skipWs rest with
          | ',' :: rest2 => (parseItems fuel rest2).map fun r => (v :: r.1, r.2)
          | ']' :: rest2 => some ([v], rest2)
          | _ => none := by
  rw [parseItems.eq_def]

theorem parseFields_succ (fuel : ℕ) (input : List Char) :
    parseFields (fuel + 1) input =
      match skipWs input with
      | [] => none
      | c :: cs =>
          if c = '"' then
            match parseStrBody cs with
            | none => none
            | some (k, rest) =>
                match skipWs rest with
                | ':' :: rest2 =>
                    match parseVal fuel rest2 with
                    | none => none
                    | some (v, rest3) =>
                        match skipWs rest3 with
                        | ',' :: rest4 =>
                            (parseFields fuel rest4).map fun r => ((k, v) :: r.1, r.2)
                        | '}' :: rest4 => some ([(k, v)], rest4)
                        | _ => none
                | _ => none
          else none := by
  rw [parseFields.eq_def]

theorem renderDec_head (m : ℤ) (e : ℕ) :
    ∃ c cs, renderDec m e = c :: cs ∧ (isDigit c = true ∨ c = '-') := by
  by_cases hm : m < 0
  · refine ⟨'-', renderDec (m.natAbs : ℤ) e, ?_, Or.inr rfl⟩
    rw [renderDec, renderDec]
    simp only [Int.natAbs_ofNat]
    rw [if_pos hm, if_neg (by omega : ¬(m.natAbs : ℤ) < 0)]
    simp
  · obtain ⟨c, cs, hrd, hc⟩ := renderDecNat_head m.natAbs e
    refine ⟨c, cs, ?_, Or.inl hc⟩
    rw [show m = ((m.natAbs : ℕ) : ℤ) from by omega]
    exact hrd

theorem stringify_head (v : JVal) :
    ∃ c cs, stringify v = c :: cs ∧ isWsChar c = false ∧ c ≠ ']' ∧ c ≠ '}' := by
  match v with
  | .jnull => exact ⟨'n', _, rfl, by decide, by decide, by decide⟩
  | .jbool true => exact ⟨'t', _, rfl, by decide, by decide, by decide⟩
  | .jbool false => exact ⟨'f', _, rfl, by decide, by decide, by decide⟩
  | .jstr s => exact ⟨'"', _, rfl, by decide, by decide, by decide⟩
  | .jarr [] => exact ⟨'[', _, rfl, by decide, by decide, by decide⟩
  | .jarr (w :: ws) =>
      refine ⟨'[', stringify w ++ stringifyItems ws ++ [']'], ?_, by decide, by decide,
        by decide⟩
      simp [stringify]
  | .jobj [] => exact ⟨'{', _, rfl, by decide, by decide, by decide⟩
  | .jobj (kv :: kvs) =>
      refine ⟨'{', renderStr kv.1 ++ ':' :: stringify kv.2 ++ stringifyFields kvs ++ ['}'],
        ?_, by decide, by decide, by decide⟩
      simp [stringify]
  | .jnum m e =>
      obtain ⟨c, cs, hrd, hc⟩ := renderDec_head m e
      refine ⟨c, cs, hrd, ?_, ?_, ?_⟩
      · rcases hc with hd | hneg
        · exact (isDigit_not_special c hd).2.2.2.1
        · subst hneg; decide
      · rcases hc with hd | hneg
        · have h1 := (isDigit_not_special c hd).2.2.2.2.2.1
          intro hcon
          subst hcon
          simp [isDigit] at hd
        · subst hneg; decide
      · rcases hc with hd | hneg
        · intro hcon
          subst hcon
          simp [isDigit] at hd
        · subst hneg; decide

theorem parseFields_succ_quote (fuel : ℕ) (cs : List Char) :
    parseFields (fuel + 1) ('"' :: cs) =
      match parseStrBody cs with
      | none => none
      | some (k, rest) =>
          match skipWs rest with
          | ':' :: rest2 =>
              match parseVal fuel rest2 with
              | none => none
              | some (v, rest3) =>
                  match skipWs rest3 with
                  | ',' :: rest4 =>
                      (parseFields fuel rest4).map fun r => ((k, v) :: r.1, r.2)
                  | '}' :: rest4 => some ([(k, v)], rest4)
                  | _ => none
          | _ => none := by
  rw [parseFields_succ, skipWs_cons_not_ws _ _ (by decide)]
  rfl

theorem parse_stringify_master : ∀ fuel : ℕ,
    (∀ (v : JVal) (rest : List Char), jsize v < fuel → numGuard rest = true →
      parseVal fuel (stringify v ++ rest) = some (v, rest)) ∧
    (∀ (v : JVal) (vs : List JVal) (rest : List Char),
      1 + jsize v + jsizeList vs < fuel → numGuard rest = true →
      parseItems fuel (stringify v ++ (stringifyItems vs ++ ']' :: rest)) =
        some (v :: vs, rest)) ∧
    (∀ (k : List Char) (v : JVal) (kvs : List (List Char × JVal)) (rest : List Char),
      1 + jsize v + jsizeFields kvs < fuel → numGuard rest = true →
      parseFields fuel
          (renderStr k ++ ':' :: (stringify v ++ (stringifyFields kvs ++ '}' :: rest))) =
        some ((k, v) :: kvs, rest)) := by
  intro fuel
  induction fuel using Nat.strong_induction_on with
  | _ fuel ih =>
    match fuel with
    | 0 =>
        exact ⟨fun v _ h _ => absurd h (by omega),
          fun v _ _ h _ => absurd h (by omega),
          fun _ v _ _ h _ => absurd h (by omega)⟩
    | F + 1 =>
        refine ⟨?_, ?_, ?_⟩
        · -- parseVal round trip
          intro v rest hsz hg
          match v with
          | .jnull =>
              show parseVal (F + 1) ('n' :: (['u', 'l', 'l'] ++ rest)) = _
              rw [parseVal_succ F 'n' _ (by decide)]
              simp
          | .jbool true =>
              show parseVal (F + 1) ('t' :: (['r', 'u', 'e'] ++ rest)) = _
              rw [parseVal_succ F 't' _ (by decide)]
              simp +decide
          | .jbool false =>
              show parseVal (F + 1) ('f' :: (['a', 'l', 's', 'e'] ++ rest)) = _
              rw [parseVal_succ F 'f' _ (by decide)]
              simp +decide
          | .jnum m e =>
              obtain ⟨c, cs, hrd, hc⟩ := renderDec_head m e
              have hfacts : isWsChar c = false ∧ c ≠ 'n' ∧ c ≠ 't' ∧ c ≠ 'f' ∧
                  c ≠ '"' ∧ c ≠ '[' ∧ c ≠ '{' := by
                rcases hc with hd | hneg
                · obtain ⟨_, _, hq, hw, hbk, _, _, _, hn, ht, hf⟩ := isDigit_not_special c hd
                  exact ⟨hw, hn, ht, hf, hq, hbk, by
                    intro hcon; subst hcon; simp [isDigit] at hd⟩
                · subst hneg
                  exact ⟨by decide, by decide, by decide, by decide, by decide,
                    by decide, by decide⟩
              show parseVal (F + 1) (renderDec m e ++ rest) = _
              rw [hrd, List.cons_append, parseVal_succ F c _ hfacts.1,
                if_neg hfacts.2.1, if_neg hfacts.2.2.1, if_neg hfacts.2.2.2.1,
                if_neg hfacts.2.2.2.2.1, if_neg hfacts.2.2.2.2.2.1,
                if_neg hfacts.2.2.2.2.2.2, ← List.cons_append, ← hrd]
              exact parseNumber_renderDec m e rest hg
          | .jstr s =>
              show parseVal (F + 1) ('"' :: ((escapeList s ++ ['"']) ++ rest)) = _
              rw [parseVal_succ F '"' _ (by decide), if_neg (by decide),
                if_neg (by decide), if_neg (by decide), if_pos rfl,
                show (escapeList s ++ ['"']) ++ rest = escapeList s ++ '"' :: rest
                  from by simp,
                parseStrBody_escape s rest]
              rfl
          | .jarr [] =>
              show parseVal (F + 1) ('[' :: (']' :: rest)) = _
              rw [parseVal_succ F '[' _ (by decide)]
              simp +decide [skipWs]
          | .jarr (w :: ws) =>
              have hstr : stringify (.jarr (w :: ws)) ++ rest =
                  '[' :: (stringify w ++ (stringifyItems ws ++ ']' :: rest)) := by
                simp [stringify]
              rw [hstr, parseVal_succ F '[' _ (by decide), if_neg (by decide),
                if_neg (by decide), if_neg (by decide), if_neg (by decide),
                if_pos rfl]
              obtain ⟨c0, cs0, hw, hw1, hw2, hw3⟩ := stringify_head w
              have hjoin : stringify w ++ (stringifyItems ws ++ ']' :: rest) =
                  c0 :: (cs0 ++ (stringifyItems ws ++ ']' :: rest)) := by
                rw [hw, List.cons_append]
              rw [hjoin, skipWs_cons_not_ws _ _ hw1]
              have hitems := (ih F (by omega)).2.1 w ws rest
                (by simp [jsize, jsizeList] at hsz; omega) hg
              rw [hjoin] at hitems
              split
              · next heq => exact absurd (List.head_eq_of_cons_eq heq.symm) (Ne.symm hw2)
              · rw [hitems]
                rfl
          | .jobj [] =>
              show parseVal (F + 1) ('{' :: ('}' :: rest)) = _
              rw [parseVal_succ F '{' _ (by decide)]
              simp +decide [skipWs]
          | .jobj (kv :: kvs) =>
              have hstr : stringify (.jobj (kv :: kvs)) ++ rest =
                  '{' :: (renderStr kv.1 ++ ':' ::
                    (stringify kv.2 ++ (stringifyFields kvs ++ '}' :: rest))) := by
                simp [stringify]
              rw [hstr, parseVal_succ F '{' _ (by decide), if_neg (by decide),
                if_neg (by decide), if_neg (by decide), if_neg (by decide),
                if_neg (by decide), if_pos rfl]
              have hjoin : renderStr kv.1 ++ ':' ::
                  (stringify kv.2 ++ (stringifyFields kvs ++ '}' :: rest)) =
                  '"' :: (escapeList kv.1 ++ ['"'] ++ ':' ::
                    (stringify kv.2 ++ (stringifyFields kvs ++ '}' :: rest))) := by
                rw [renderStr, List.cons_append]
                simp
              rw [hjoin, skipWs_cons_not_ws _ _ (by decide)]
              have hflds := (ih F (by omega)).2.2 kv.1 kv.2 kvs rest
                (by simp [jsize, jsizeFields] at hsz; omega) hg
              rw [hjoin] at hflds
              split
              · next heq => exact absurd (List.head_eq_of_cons_eq heq.symm) (by decide)
              · rw [hflds]
                rfl
        · -- parseItems round trip
          intro v vs rest hsz hg
          rw [parseItems_succ,
            (ih F (by omega)).1 v (stringifyItems vs ++ ']' :: rest)
              (by omega) (numGuard_items vs rest)]
          match vs with
          | [] =>
              show (match skipWs (']' :: rest) with
                | ',' :: rest2 => (parseItems F rest2).map fun r => (v :: r.1, r.2)
                | ']' :: rest2 => some ([v], rest2)
                | _ => none) = some ([v], rest)
              rw [skipWs_cons_not_ws _ _ (by decide)]
              rfl
          | w :: ws =>
              have hcons : stringifyItems (w :: ws) ++ ']' :: rest =
                  ',' :: (stringify w ++ (stringifyItems ws ++ ']' :: rest)) := by
                simp [stringifyItems]
              have hv1 := jsize_pos v
              have hitems := (ih F (by omega)).2.1 w ws rest
                (by simp [jsizeList] at hsz; omega) hg
              show (match skipWs (stringifyItems (w :: ws) ++ ']' :: rest) with
                | ',' :: rest2 => (parseItems F rest2).map fun r => (v :: r.1, r.2)
                | ']' :: rest2 => some ([v], rest2)
                | _ => none) = some (v :: w :: ws, rest)
              rw [hcons, skipWs_cons_not_ws _ _ (by decide)]
              show (parseItems F (stringify w ++ (stringifyItems ws ++ ']' :: rest))).map
                  (fun r => (v :: r.1, r.2)) = some (v :: w :: ws, rest)
              rw [hitems]
              rfl
        · -- parseFields round trip
          intro k v kvs rest hsz hg
          have hjoin : renderStr k ++ ':' ::
              (stringify v ++ (stringifyFields kvs ++ '}' :: rest)) =
              '"' :: (escapeList k ++ '"' ::
                (':' :: (stringify v ++ (stringifyFields kvs ++ '}' :: rest)))) := by
            rw [renderStr]
            simp
          rw [hjoin, parseFields_succ_quote F _,
            parseStrBody_escape k (':' :: (stringify v ++ (stringifyFields kvs ++ '}' :: rest)))]
          show (match skipWs (':' :: (stringify v ++ (stringifyFields kvs ++ '}' :: rest))) with
            | ':' :: rest2 =>
                match parseVal F rest2 with
                | none => none
                | some (v, rest3) =>
                    match skipWs rest3 with
                    | ',' :: rest4 => (parseFields F rest4).map fun r => ((k, v) :: r.1, r.2)
                    | '}' :: rest4 => some ([(k, v)], rest4)
                    | _ => none
            | _ => none) = some ((k, v) :: kvs, rest)
          rw [skipWs_cons_not_ws _ _ (by decide)]
          show (match parseVal F (stringify v ++ (stringifyFields kvs ++ '}' :: rest)) with
            | none => none
            | some (v1, rest3) =>
                match skipWs rest3 with
                | ',' :: rest4 => (parseFields F rest4).map fun r => ((k, v1) :: r.1, r.2)
                | '}' :: rest4 => some ([(k, v1)], rest4)
                | _ => none) = some ((k, v) :: kvs, rest)
          rw [(ih F (by omega)).1 v (stringifyFields kvs ++ '}' :: rest)
            (by omega) (numGuard_fields kvs rest)]
          match kvs with
          | [] =>
              show (match skipWs ('}' :: rest) with
                | ',' :: rest4 => (parseFields F rest4).map fun r => ((k, v) :: r.1, r.2)
                | '}' :: rest4 => some ([(k, v)], rest4)
                | _ => none) = some ([(k, v)], rest)
              rw [skipWs_cons_not_ws _ _ (by decide)]
              rfl
          | kv2 :: kvs2 =>
              have hcons : stringifyFields (kv2 :: kvs2) ++ '}' :: rest =
                  ',' :: (renderStr kv2.1 ++ ':' ::
                    (stringify kv2.2 ++ (stringifyFields kvs2 ++ '}' :: rest))) := by
                simp [stringifyFields]
              have hv1 := jsize_pos v
              have hflds := (ih F (by omega)).2.2 kv2.1 kv2.2 kvs2 rest
                (by simp [jsizeFields] at hsz; omega) hg
              show (match skipWs (stringifyFields (kv2 :: kvs2) ++ '}' :: rest) with
                | ',' :: rest4 => (parseFields F rest4).map fun r => ((k, v) :: r.1, r.2)
                | '}' :: rest4 => some ([(k, v)], rest4)
                | _ => none) = some ((k, v) :: kv2 :: kvs2, rest)
              rw [hcons, skipWs_cons_not_ws _ _ (by decide)]
              show (parseFields F (renderStr kv2.1 ++ ':' ::
                  (stringify kv2.2 ++ (stringifyFields kvs2 ++ '}' :: rest)))).map
                  (fun r => ((k, v) :: r.1, r.2)) = some ((k, v) :: kv2 :: kvs2, rest)
              rw [hflds]
              rfl

theorem stringify_ne_nil (v : JVal) : (stringify v).length ≥ 1 := by
  obtain ⟨c, cs, h, _⟩ := stringify_head v
  rw [h]
  simp

theorem jsize_le_stringify_aux : ∀ N : ℕ,
    (∀ v, jsize v ≤ N → jsize v ≤ 2 * (stringify v).length) ∧
    (∀ vs, jsizeList vs ≤ N → jsizeList vs ≤ 2 * (stringifyItems vs).length) ∧
    (∀ kvs, jsizeFields kvs ≤ N → jsizeFields kvs ≤ 2 * (stringifyFields kvs).length) := by
  intro N
  induction N using Nat.strong_induction_on with
  | _ N ih =>
      refine ⟨?_, ?_, ?_⟩
      · intro v hN
        match v with
        | .jnull => simp [jsize, stringify]
        | .jbool true => simp [jsize, stringify]
        | .jbool false => simp [jsize, stringify]
        | .jnum m e =>
            have := stringify_ne_nil (.jnum m e)
            simp only [jsize]
            omega
        | .jstr s =>
            have := stringify_ne_nil (.jstr s)
            simp only [jsize]
            omega
        | .jarr vs =>
            have hsub : jsizeList vs ≤ 2 * (stringifyItems vs).length := by
              by_cases hN2 : jsizeList vs < N
              · exact (ih (jsizeList vs) hN2).2.1 vs le_rfl
              · have : jsize (JVal.jarr vs) = 2 + jsizeList vs := by simp [jsize]
                omega
            match vs with
            | [] => simp [jsize, jsizeList, stringify]
            | w :: ws =>
                have hlen : (stringify (JVal.jarr (w :: ws))).length =
                    1 + ((stringify w).length + ((stringifyItems ws).length + 1)) := by
                  simp [stringify]
                  omega
                have hlen2 : (stringifyItems (w :: ws)).length =
                    1 + ((stringify w).length + (stringifyItems ws).length) := by
                  simp [stringifyItems]
                  omega
                simp only [jsize] at hN ⊢
                omega
        | .jobj kvs =>
            have hsub : jsizeFields kvs ≤ 2 * (stringifyFields kvs).length := by
              by_cases hN2 : jsizeFields kvs < N
              · exact (ih (jsizeFields kvs) hN2).2.2 kvs le_rfl
              · have : jsize (JVal.jobj kvs) = 2 + jsizeFields kvs := by simp [jsize]
                omega
            match kvs with
            | [] => simp [jsize, jsizeFields, stringify]
            | kv :: kvs2 =>
                have hlen : (stringify (JVal.jobj (kv :: kvs2))).length =
                    1 + ((renderStr kv.1).length + (1 + ((stringify kv.2).length +
                      ((stringifyFields kvs2).length + 1)))) := by
                  simp [stringify]
                  omega
                have hlen2 : (stringifyFields (kv :: kvs2)).length =
                    1 + ((renderStr kv.1).length + (1 + ((stringify kv.2).length +
                      (stringifyFields kvs2).length))) := by
                  simp [stringifyFields]
                  omega
                simp only [jsize] at hN ⊢
                omega
      · intro vs hN
        match vs with
        | [] => simp [jsizeList]
        | w :: ws =>
            have h1 : jsize w ≤ 2 * (stringify w).length := by
              have hlt : jsize w < N := by
                have := jsize_pos w
                simp [jsizeList] at hN
                omega
              exact (ih (jsize w) hlt).1 w le_rfl
            have h2 : jsizeList ws ≤ 2 * (stringifyItems ws).length := by
              by_cases hlt : jsizeList ws < N
              · exact (ih (jsizeList ws) hlt).2.1 ws le_rfl
              · simp [jsizeList] at hN
                omega
            have hw := stringify_ne_nil w
            have hlen : (stringifyItems (w :: ws)).length =
                1 + ((stringify w).length + (stringifyItems ws).length) := by
              simp [stringifyItems]
              omega
            simp only [jsizeList]
            omega
      · intro kvs hN
        match kvs with
        | [] => simp [jsizeFields]
        | kv :: kvs2 =>
            have h1 : jsize kv.2 ≤ 2 * (stringify kv.2).length := by
              have hlt : jsize kv.2 < N := by
                have := jsize_pos kv.2
                simp [jsizeFields] at hN
                omega
              exact (ih (jsize kv.2) hlt).1 kv.2 le_rfl
            have h2 : jsizeFields kvs2 ≤ 2 * (stringifyFields kvs2).length := by
              by_cases hlt : jsizeFields kvs2 < N
              · exact (ih (jsizeFields kvs2) hlt).2.2 kvs2 le_rfl
              · simp [jsizeFields] at hN
                omega
            have hw := stringify_ne_nil kv.2
            have hlen : (stringifyFields (kv :: kvs2)).length =
                1 + ((renderStr kv.1).length + (1 + ((stringify kv.2).length +
                  (stringifyFields kvs2).length))) := by
              simp [stringifyFields]
              omega
            simp only [jsizeFields]
            omega

theorem JSONparse_stringify (v : JVal) : JSONparse (stringify v) = some v := by
  have hb := (jsize_le_stringify_aux (jsize v)).1 v le_rfl
  have h := (parse_stringify_master (2 * (stringify v).length + 2)).1 v [] (by omega) rfl
  rw [List.append_nil] at h
  rw [JSONparse, h]
  rfl

/-- C3: the Minified encoding is semantically identical to the Regular
encoding: for every serialized stage text that parses (to any JSON value),
`handleMinifiedExport` reserializes exactly that value, and parsing its
output yields a value identical to parsing the Regular output. -/
theorem minified_equals_regular (regular : List Char) (v : JVal)
    (h : JSONparse regular = some v) :
    handleMinifiedExport regular = some (stringify v) ∧
    JSONparse (stringify v) = JSONparse regular := by
  constructor
  · rw [handleMinifiedExport, h]
    rfl
  · rw [JSONparse_stringify v, h]

/-- C3 witness: a concrete whitespace-laden regular text reparses to the
same value after minification. -/
theorem minified_equals_regular_witness :
    handleMinifiedExport "[ 1 , true ]".data =
      some (stringify (JVal.jarr [JVal.jnum 1 0, JVal.jbool true])) ∧
    JSONparse (stringify (JVal.jarr [JVal.jnum 1 0, JVal.jbool true])) =
      JSONparse "[ 1 , true ]".data :=
  minified_equals_regular "[ 1 , true ]".data
    (JVal.jarr [JVal.jnum 1 0, JVal.jbool true]) rfl


theorem utf8Len_nil : utf8Len [] = 0 := rfl

theorem utf8Len_cons (c : Char) (s : List Char) :
    utf8Len (c :: s) = charBytes c + utf8Len s := by
  simp [utf8Len]

theorem utf8Len_append (a b : List Char) :
    utf8Len (a ++ b) = utf8Len a + utf8Len b := by
  simp [utf8Len]

theorem charBytes_pos (c : Char) : 1 ≤ charBytes c := by
  unfold charBytes
  split <;> try omega
  split <;> try omega
  split <;> omega

theorem utf8Len_pos (l : List Char) (h : l ≠ []) : 1 ≤ utf8Len l := by
  match l, h with
  | c :: cs, _ =>
      rw [utf8Len_cons]
      have := charBytes_pos c
      omega

theorem utf8Len_replicate_space (n : ℕ) : utf8Len (List.replicate n ' ') = n := by
  induction n with
  | zero => rfl
  | succ k ih =>
      rw [List.replicate_succ, utf8Len_cons, ih, show charBytes ' ' = 1 from rfl]
      omega

theorem compact_le_pretty : ∀ N : ℕ,
    (∀ v, jsize v ≤ N → ∀ ind, utf8Len (stringify v) ≤ utf8Len (pretty ind v)) ∧
    (∀ vs, jsizeList vs ≤ N → ∀ ind,
      utf8Len (stringifyItems vs) ≤ utf8Len (prettyItems ind vs)) ∧
    (∀ kvs, jsizeFields kvs ≤ N → ∀ ind,
      utf8Len (stringifyFields kvs) ≤ utf8Len (prettyFields ind kvs)) := by
  intro N
  induction N using Nat.strong_induction_on with
  | _ N ih =>
      refine ⟨?_, ?_, ?_⟩
      · intro v hN ind
        match v with
        | .jnull => simp [stringify, pretty]
        | .jbool true => simp [stringify, pretty]
        | .jbool false => simp [stringify, pretty]
        | .jnum m e => simp [stringify, pretty]
        | .jstr s => simp [stringify, pretty]
        | .jarr [] => simp [stringify, pretty]
        | .jarr (w :: ws) =>
            have h1 : jsize w < N := by
              have := jsize_pos w
              simp [jsize, jsizeList] at hN
              omega
            have h2 : jsizeList ws < N := by
              simp [jsize, jsizeList] at hN
              omega
            have hv := ((ih (jsize w) h1).1 w le_rfl (ind + 2))
            have hi := ((ih (jsizeList ws) h2).2.1 ws le_rfl (ind + 2))
            simp only [stringify, pretty, utf8Len_cons, utf8Len_append,
              utf8Len_replicate_space]
            have c1 := charBytes_pos '['
            omega
        | .jobj [] => simp [stringify, pretty]
        | .jobj (kv :: kvs) =>
            have h1 : jsize kv.2 < N := by
              have := jsize_pos kv.2
              simp [jsize, jsizeFields] at hN
              omega
            have h2 : jsizeFields kvs < N := by
              simp [jsize, jsizeFields] at hN
              omega
            have hv := ((ih (jsize kv.2) h1).1 kv.2 le_rfl (ind + 2))
            have hf := ((ih (jsizeFields kvs) h2).2.2 kvs le_rfl (ind + 2))
            simp only [stringify, pretty, utf8Len_cons, utf8Len_append,
              utf8Len_replicate_space]
            omega
      · intro vs hN ind
        match vs with
        | [] => simp [stringifyItems, prettyItems]
        | w :: ws =>
            have h1 : jsize w < N := by
              have := jsize_pos w
              simp [jsizeList] at hN
              omega
            have h2 : jsizeList ws < N := by
              simp [jsizeList] at hN
              omega
            have hv := ((ih (jsize w) h1).1 w le_rfl ind)
            have hi := ((ih (jsizeList ws) h2).2.1 ws le_rfl ind)
            simp only [stringifyItems, prettyItems, utf8Len_cons, utf8Len_append,
              utf8Len_replicate_space]
            omega
      · intro kvs hN ind
        match kvs with
        | [] => simp [stringifyFields, prettyFields]
        | kv :: kvs2 =>
            have h1 : jsize kv.2 < N := by
              have := jsize_pos kv.2
              simp [jsizeFields] at hN
              omega
            have h2 : jsizeFields kvs2 < N := by
              simp [jsizeFields] at hN
              omega
            have hv := ((ih (jsize kv.2) h1).1 kv.2 le_rfl ind)
            have hf := ((ih (jsizeFields kvs2) h2).2.2 kvs2 le_rfl ind)
            simp only [stringifyFields, prettyFields, utf8Len_cons, utf8Len_append,
              utf8Len_replicate_space]
            omega

theorem utf8Len_stringify_pos (v : JVal) : 1 ≤ utf8Len (stringify v) := by
  obtain ⟨c, cs, h, _⟩ := stringify_head v
  rw [h, utf8Len_cons]
  have := charBytes_pos c
  omega

theorem shape_savings (sh : Shape) (size : ℤ) (hty : sh.type ∈ shapeTypes)
    (hat : sh.attrs = scaleAttrs size (lookupDefaults sh.type)) :
    utf8Len (stringify (optShapeJVal (optimizeShape sh))) + 45 ≤
      utf8Len (stringify (fullShapeJVal sh)) := by
  have b1 : charBytes '{' = 1 := by decide
  have b2 : charBytes '}' = 1 := by decide
  have b3 : charBytes ':' = 1 := by decide
  have b4 : charBytes ',' = 1 := by decide
  have k01 : utf8Len (renderStr ['i']) = 3 := by decide
  have k02 : utf8Len (renderStr ['x']) = 3 := by decide
  have k03 : utf8Len (renderStr ['y']) = 3 := by decide
  have k04 : utf8Len (renderStr ['f']) = 3 := by decide
  have k05 : utf8Len (renderStr ['r']) = 3 := by decide
  have k06 : utf8Len (renderStr ['t']) = 3 := by decide
  have k07 : utf8Len (renderStr ['i', 'd']) = 4 := by decide
  have k08 : utf8Len (renderStr ['f', 'i', 'l', 'l']) = 6 := by decide
  have k09 : utf8Len (renderStr ['r', 'o', 't', 'a', 't', 'i', 'o', 'n']) = 10 := by decide
  have k10 : utf8Len (renderStr ['t', 'y', 'p', 'e']) = 6 := by decide
  have k11 : utf8Len (renderStr ['s', 'h', 'a', 'd', 'o', 'w', 'B', 'l', 'u', 'r']) = 12 := by
    decide
  have k12 : utf8Len (renderStr ['o', 'p', 'a', 'c', 'i', 't', 'y']) = 9 := by decide
  have k13 : utf8Len (renderStr ['w', 'i', 'd', 't', 'h']) = 7 := by decide
  have k14 : utf8Len (renderStr ['h', 'e', 'i', 'g', 'h', 't']) = 8 := by decide
  have k15 : utf8Len (renderStr ['r', 'a', 'd', 'i', 'u', 's']) = 8 := by decide
  have k16 : utf8Len (renderStr ['t', 'e', 'x', 't']) = 6 := by decide
  have k17 : utf8Len (renderStr ['f', 'o', 'n', 't', 'S', 'i', 'z', 'e']) = 10 := by decide
  have k18 : utf8Len (renderStr ['n', 'u', 'm', 'P', 'o', 'i', 'n', 't', 's']) = 11 := by decide
  have k19 : utf8Len (renderStr ['i', 'n', 'n', 'e', 'r', 'R', 'a', 'd', 'i', 'u', 's']) = 13 :=
    by decide
  have k20 : utf8Len (renderStr ['o', 'u', 't', 'e', 'r', 'R', 'a', 'd', 'i', 'u', 's']) = 13 :=
    by decide
  have k21 : utf8Len (renderStr ['s', 'i', 'd', 'e', 's']) = 7 := by decide
  have t1 : utf8Len (renderStr ['r', 'e', 'c', 't']) = 6 := by decide
  have t2 : utf8Len (renderStr ['c', 'i', 'r', 'c', 'l', 'e']) = 8 := by decide
  have t3 : utf8Len (renderStr ['s', 't', 'a', 'r']) = 6 := by decide
  have t4 : utf8Len (renderStr ['t', 'r', 'i', 'a', 'n', 'g', 'l', 'e']) = 10 := by decide
  have t5 : utf8Len (renderStr ['h', 'e', 'x', 'a', 'g', 'o', 'n']) = 9 := by decide
  have g1 : utf8Len (renderStr starGlyph.data) = 9 := by decide
  have a1 : utf8Len (renderStr (charAt0 "rect").data) = 3 := by decide
  have a2 : utf8Len (renderStr (charAt0 "circle").data) = 3 := by decide
  have a3 : utf8Len (renderStr (charAt0 "text").data) = 3 := by decide
  have a4 : utf8Len (renderStr (charAt0 "star").data) = 3 := by decide
  have a5 : utf8Len (renderStr (charAt0 "triangle").data) = 3 := by decide
  have a6 : utf8Len (renderStr (charAt0 "hexagon").data) = 3 := by decide
  simp only [shapeTypes, List.mem_cons, List.not_mem_nil, or_false] at hty
  rcases hty with hty | hty | hty | hty | hty | hty <;>
    (rw [hty] at hat
     simp +decide [lookupDefaults, SHAPE_DEFAULTS, List.lookup, scaleAttrs, scaleAttr] at hat
     simp only [fullShapeJVal, optShapeJVal, optimizeShape, hat, hty, attrJVal,
       List.map_cons, List.map_nil, List.cons_append, List.nil_append,
       stringify, stringifyFields, utf8Len_cons, utf8Len_append, utf8Len_nil,
       b1, b2, b3, b4, k01, k02, k03, k04, k05, k06, k07, k08, k09, k10, k11, k12,
       k13, k14, k15, k16, k17, k18, k19, k20, k21, t1, t2, t3, t4, t5, g1,
       a1, a2, a3, a4, a5, a6]
     omega)

theorem items_savings : ∀ shapes : List Shape,
    (∀ sh ∈ shapes, sh.type ∈ shapeTypes ∧
      ∃ size : ℤ, sh.attrs = scaleAttrs size (lookupDefaults sh.type)) →
    utf8Len (stringifyItems (shapes.map fun sh => optShapeJVal (optimizeShape sh))) +
        45 * shapes.length ≤
      utf8Len (stringifyItems (shapes.map fullShapeJVal)) := by
  intro shapes
  induction shapes with
  | nil => intro _; simp [stringifyItems]
  | cons sh rest ih =>
      intro h
      obtain ⟨hty, size, hat⟩ := h sh (List.mem_cons_self sh rest)
      have hs := shape_savings sh size hty hat
      have hr := ih fun x hx => h x (List.mem_cons_of_mem sh hx)
      simp only [List.map_cons, stringifyItems, utf8Len_cons, utf8Len_append,
        List.length_cons]
      omega

theorem arr_savings (shapes : List Shape)
    (h : ∀ sh ∈ shapes, sh.type ∈ shapeTypes ∧
      ∃ size : ℤ, sh.attrs = scaleAttrs size (lookupDefaults sh.type)) :
    utf8Len (stringify (.jarr (shapes.map fun sh => optShapeJVal (optimizeShape sh)))) +
        45 * shapes.length ≤
      utf8Len (stringify (.jarr (shapes.map fullShapeJVal))) := by
  match shapes with
  | [] => simp [stringify]
  | sh :: rest =>
      obtain ⟨hty, size, hat⟩ := h sh (List.mem_cons_self sh rest)
      have hs := shape_savings sh size hty hat
      have hr := items_savings rest fun x hx => h x (List.mem_cons_of_mem sh hx)
      have hjarr : ∀ (x : JVal) (xs : List JVal),
          stringify (.jarr (x :: xs)) = '[' :: (stringify x ++ stringifyItems xs ++ [']']) :=
        fun x xs => by simp [stringify]
      rw [List.map_cons, List.map_cons, hjarr, hjarr]
      simp only [utf8Len_cons, utf8Len_append, List.length_cons, utf8Len_nil]
      omega

set_option maxRecDepth 40000 in
theorem encodeOptimized_len (shapes : List Shape) :
    utf8Len (encodeOptimized shapes) =
      281 + utf8Len (stringify (.jarr ((shapes.map optimizeShape).map optShapeJVal))) := by
  have hsplit : utf8Len (encodeOptimized shapes) +
      utf8Len (stringify (.jarr ([] : List JVal))) =
      utf8Len (encodeOptimized []) +
        utf8Len (stringify (.jarr ((shapes.map optimizeShape).map optShapeJVal))) := by
    simp only [encodeOptimized, optPayloadJVal, handleOptimizedExport,
      List.map_nil, stringify, stringifyFields, utf8Len_cons,
      utf8Len_append, utf8Len_nil]
    omega
  have h1 : utf8Len (stringify (.jarr ([] : List JVal))) = 2 := by decide
  have r5 : ratJVal 5 = .jnum 5 0 := by norm_num [ratJVal]
  have r34 : ratJVal (3 / 4) = .jnum 75 2 := by norm_num [ratJVal]
  have r100 : ratJVal 100 = .jnum 100 0 := by norm_num [ratJVal]
  have r50 : ratJVal 50 = .jnum 50 0 := by norm_num [ratJVal]
  have r3 : ratJVal 3 = .jnum 3 0 := by norm_num [ratJVal]
  have r6 : ratJVal 6 = .jnum 6 0 := by norm_num [ratJVal]
  have h2 : utf8Len (encodeOptimized []) = 283 := by
    simp only [encodeOptimized, optPayloadJVal, handleOptimizedExport, COMMON_PROPS,
      defaultsJVal, SHAPE_DEFAULTS, attrJVal, List.map_cons, List.map_nil,
      r5, r34, r100, r50, r3, r6]
    decide
  omega

theorem generateShape_type_mem (rng : Rng) (W H : ℤ) (i : ℕ) (hr : RngValid rng) :
    (generateShape rng W H i).type ∈ shapeTypes := by
  obtain ⟨h0, h1⟩ := hr (6 * i)
  exact shapeTypes_getD_mem _ (by
    have := floor_scaled_toNat_lt (rng (6 * i)) 6 h0 h1 (by omega)
    simpa [shapeTypes] using this)

theorem generateShape_attrs (rng : Rng) (W H : ℤ) (i : ℕ) :
    ∃ size : ℤ, (generateShape rng W H i).attrs =
      scaleAttrs size (lookupDefaults ((generateShape rng W H i).type)) :=
  ⟨getRandomInt (rng (6 * i + 3)) 50 150, rfl⟩

/-- C8: for every collection from the default generator, the Minified
encoding is no larger than the Regular encoding, and the Optimized encoding
is no larger than the Minified encoding (byte sizes in UTF-8). -/
theorem export_size_ordering (rng : Rng) (hr : RngValid rng) :
    utf8Len (encodeMinified (generateShapes rng)) ≤
      utf8Len (encodeRegular (generateShapes rng)) ∧
    utf8Len (encodeOptimized (generateShapes rng)) ≤
      utf8Len (encodeMinified (generateShapes rng)) := by
  constructor
  · exact (compact_le_pretty (jsize (sceneJVal (generateShapes rng)))).1
      (sceneJVal (generateShapes rng)) le_rfl 0
  · have hlen : (generateShapes rng).length = 10000 := by
      simp [generateShapes, generateShapesWith, SHAPE_COUNT]
    have hprops : ∀ sh ∈ generateShapes rng, sh.type ∈ shapeTypes ∧
        ∃ size : ℤ, sh.attrs = scaleAttrs size (lookupDefaults sh.type) := by
      intro sh hsh
      simp only [generateShapes, generateShapesWith, List.mem_map,
        List.mem_range] at hsh
      obtain ⟨i, hi, rfl⟩ := hsh
      exact ⟨generateShape_type_mem rng _ _ i hr, generateShape_attrs rng _ _ i⟩
    have harr := arr_savings (generateShapes rng) hprops
    have hopt := encodeOptimized_len (generateShapes rng)
    have hmap : ((generateShapes rng).map optimizeShape).map optShapeJVal =
        (generateShapes rng).map fun sh => optShapeJVal (optimizeShape sh) := by
      simp [List.map_map, Function.comp]
    rw [hmap] at hopt
    have hmin : encodeMinified (generateShapes rng) =
        stringify (.jarr ((generateShapes rng).map fullShapeJVal)) := rfl
    rw [hopt, hmin]
    omega

/-- C8 witness: the ordering at a concrete valid random source. -/
theorem export_size_ordering_witness :
    utf8Len (encodeMinified (generateShapes fun _ => 0)) ≤
      utf8Len (encodeRegular (generateShapes fun _ => 0)) :=
  (export_size_ordering (fun _ => 0) fun k => by norm_num).1
